import Mathlib

/-!
Verification development for the p2p-console-viewer signaling server
(`workplaces/p2p-console-viewer-server/server.js`).

The server is embedded shallowly as a state machine:
* `ServerState` holds the two process-global structures, the client registry
  (`clients`, a JS `Map` from id to record, modelled as an insertion-ordered
  association list) and the room index (`rooms`, a JS `Map` from room name to a
  JS `Set` of ids, modelled as an association list of insertion-ordered
  duplicate-free lists).
* Each handler of the source becomes a function from the state (plus the
  ambient inputs it reads: the wall-clock reading `Date.now()`, the parsed
  inbound message, connection parameters) to the new state together with the
  list of transport events it emits, in emission order.
* JSON objects are modelled as association lists of string fields; the claims
  under study only concern string-valued fields, so field values are strings.
  JS truthiness tests on string-or-null values (`if (target)`, `if (ci.room)`)
  are modelled by `truthyS`, false exactly on `null`/absent and the empty
  string.
* JS numbers in the token bucket are modelled as rationals.
-/

namespace P2PServer

/-- Lookup in an association list, the first binding wins (JS `Map.get`). -/
def alookup {α : Type} : List (String × α) → String → Option α
  | [], _ => none
  | (k', v) :: t, k => if k' = k then some v else alookup t k

/-- JS `Map.set`: replace the binding in place if the key is present, else
append the new binding at the end (insertion order is preserved). -/
def aset {α : Type} : List (String × α) → String → α → List (String × α)
  | [], k, v => [(k, v)]
  | (k', v') :: t, k, v => if k' = k then (k, v) :: t else (k', v') :: aset t k v

/-- JS `Map.delete`: remove the (unique) binding for the key. -/
def aerase {α : Type} : List (String × α) → String → List (String × α)
  | [], _ => []
  | (k', v') :: t, k => if k' = k then t else (k', v') :: aerase t k

/-- JS `Set.add`: append the element if it is not already a member. -/
def sadd (l : List String) (x : String) : List String :=
  if x ∈ l then l else l ++ [x]

/-- JS truthiness of a string-or-null value: `null` (absent) and `""` are
falsy, every other string is truthy. -/
def truthyS : Option String → Bool
  | none => false
  | some s => s != ""

/-- Token-bucket state of one client: `{ tokens, last }` (source line 109). -/
structure RateState where
  tokens : ℚ
  last : ℚ
deriving DecidableEq, Repr

/-- One client record of the registry: `{ ws, room, id, rate, isAlive }`
(source lines 105–111).  The `ws` handle is abstracted to the one bit the
server reads from it, `readyState === WebSocket.OPEN`. -/
structure Client where
  room : Option String
  wsOpen : Bool
  isAlive : Bool
  rate : RateState
deriving DecidableEq, Repr

/-- Startup configuration (source lines 14–21). -/
structure Config where
  maxClients : Nat
  maxRoomClients : Nat
  messageRatePerSec : ℚ
  messageBurst : ℚ
  wsSecret : String
  allowedOrigins : List String
deriving Repr

/-- The two process-global structures (source lines 26–27). -/
structure ServerState where
  clients : List (String × Client)
  rooms : List (String × List String)
deriving DecidableEq, Repr

/-- Frames the server writes to a client, one constructor per JSON shape the
source serializes. -/
inductive OutFrame where
  | idFrame (id : String)
  | roomJoined (room : String)
  | roomLeft (room : String)
  | roomPeers (peers : List String)
  | peerJoined (peerId : String)
  | peerLeft (peerId : String)
  | errorFrame (message : String) (toField : Option String)
  | relay (fields : List (String × String))
  | raw (s : String)
deriving DecidableEq, Repr

/-- Observable transport events, in emission order. -/
inductive Evt where
  | send (toId : String) (frame : OutFrame)
  | closeConn (code : Nat) (reason : String)
  | terminate (id : String)
  | ping (id : String)
deriving DecidableEq, Repr

/-- Outcome of `JSON.parse` on one inbound message (source lines 139–154):
a parse failure keeps the raw text, a non-object root is collapsed to `null`,
an object root is kept as its fields. -/
inductive Inbound where
  | unparsable (rawMsg : String)
  | nonObject
  | object (fields : List (String × String))

/-- Character class of the room-name pattern `[A-Za-z0-9\-_]` (line 58). -/
def isValidRoomNameChar (c : Char) : Bool :=
  c.isAlpha || c.isDigit || c == '-' || c == '_'

/-- `isValidRoomName` (source lines 57–59): a string of 1 to 64 characters
from the allowed class; a missing or non-string value fails the check. -/
def isValidRoomName : Option String → Bool
  | none => false
  | some s => decide (1 ≤ s.length) && decide (s.length ≤ 64) && s.toList.all isValidRoomNameChar

/-- `rateAllow` (source lines 61–71): refill the bucket from the wall-clock
reading `now` (`Date.now()`), clamping negative elapsed time to zero and the
bucket to the burst size, then try to consume one token. -/
def rateAllow (cfg : Config) (now : ℚ) (r : RateState) : Bool × RateState :=
  let elapsed := max 0 ((now - r.last) / 1000)
  let tokens := min cfg.messageBurst (r.tokens + elapsed * cfg.messageRatePerSec)
  if 1 ≤ tokens then (true, { tokens := tokens - 1, last := now })
  else (false, { tokens := tokens, last := now })

/-- `safeSend` to a client whose record is at hand: emit only when the
stream is open (source lines 44–55). -/
def sendToClient (ci : Client) (id : String) (f : OutFrame) : List Evt :=
  if ci.wsOpen then [Evt.send id f] else []

/-- `broadcastToRoom` (source lines 293–306): walk the member set in
insertion order, skip `exceptId`, and `safeSend` to every member whose
stream is open. -/
def broadcastToRoom (st : ServerState) (msg : OutFrame) (roomName : String)
    (exceptId : String) : List Evt :=
  match alookup st.rooms roomName with
  | none => []
  | some mem =>
    mem.filterMap (fun cid =>
      if cid = exceptId then none
      else
        match alookup st.clients cid with
        | some ci => if ci.wsOpen then some (Evt.send cid msg) else none
        | none => none)

/-- `handleLeaveRoom` (source lines 264–291): drop the client from its room's
set, announce `peer-left` to the remaining members, garbage-collect the room
if it became empty, clear the client's `room` field, and confirm `room-left`
to the client if its stream is still open. -/
def handleLeaveRoom (st : ServerState) (clientId : String) : ServerState × List Evt :=
  match alookup st.clients clientId with
  | none => (st, [])
  | some ci =>
    if truthyS ci.room then
      let roomName := ci.room.getD ""
      let (rooms2, evts1) :=
        match alookup st.rooms roomName with
        | none => (st.rooms, ([] : List Evt))
        | some mem =>
          let mem' := mem.erase clientId
          let rooms1 := aset st.rooms roomName mem'
          let evts := broadcastToRoom ⟨st.clients, rooms1⟩ (OutFrame.peerLeft clientId)
            roomName clientId
          (if mem'.length = 0 then aerase rooms1 roomName else rooms1, evts)
      let clients2 := aset st.clients clientId { ci with room := none }
      let evts2 := if ci.wsOpen then [Evt.send clientId (OutFrame.roomLeft roomName)] else []
      (⟨clients2, rooms2⟩, evts1 ++ evts2)
    else (st, [])

/-- Second half of `handleJoinRoom` (source lines 244–261): set the client's
`room` field, create the room set lazily and add the client, then emit
`room-joined` to the joiner, `peer-joined` to the other members, and
`room-peers` (the members except the joiner) to the joiner. -/
def joinCore (st1 : ServerState) (clientId : String) (ci1 : Client) (roomName : String) :
    ServerState × List Evt :=
  let ci2 := { ci1 with room := some roomName }
  let clients2 := aset st1.clients clientId ci2
  let mem := sadd ((alookup st1.rooms roomName).getD []) clientId
  let st2 : ServerState := ⟨clients2, aset st1.rooms roomName mem⟩
  let e1 := sendToClient ci2 clientId (OutFrame.roomJoined roomName)
  let e2 := broadcastToRoom st2 (OutFrame.peerJoined clientId) roomName clientId
  let roomClients := mem.filter (fun x => x ≠ clientId)
  let e3 := sendToClient ci2 clientId (OutFrame.roomPeers roomClients)
  (st2, e1 ++ e2 ++ e3)

/-- `handleJoinRoom` (source lines 235–262): leave the current room first if
in one, then perform `joinCore`. -/
def handleJoinRoom (st : ServerState) (clientId roomName : String) : ServerState × List Evt :=
  match alookup st.clients clientId with
  | none => (st, [])
  | some ci0 =>
    let p := if truthyS ci0.room then handleLeaveRoom st clientId else (st, [])
    match alookup p.1.clients clientId with
    | none => p
    | some ci1 =>
      let r := joinCore p.1 clientId ci1 roomName
      (r.1, p.2 ++ r.2)

/-- Prototype-pollution guard (source lines 146–150): reject objects carrying
an own `__proto__` or `constructor` key. -/
def hasForbiddenKey (fields : List (String × String)) : Bool :=
  (alookup fields "__proto__").isSome || (alookup fields "constructor").isSome

/-- The message handler `ws.on("message")` (source lines 125–219): rate-limit,
parse-dispatch to join/leave, targeted relay, room fan-out, or error. -/
def handleMessage (cfg : Config) (st : ServerState) (id : String) (inb : Inbound)
    (now : ℚ) : ServerState × List Evt :=
  match alookup st.clients id with
  | none => (st, [])
  | some ci0 =>
    let ar := rateAllow cfg now ci0.rate
    let ci : Client := { ci0 with rate := ar.2 }
    let st1 : ServerState := ⟨aset st.clients id ci, st.rooms⟩
    if !ar.1 then (st1, sendToClient ci id (OutFrame.errorFrame "rate-limit" none))
    else
      match inb with
      | Inbound.unparsable rawMsg =>
        if truthyS ci.room then
          (st1, broadcastToRoom st1 (OutFrame.raw rawMsg) (ci.room.getD "") id)
        else (st1, [])
      | Inbound.nonObject =>
        (st1, sendToClient ci id (OutFrame.errorFrame "invalid-message" none))
      | Inbound.object fields =>
        if hasForbiddenKey fields then
          (st1, sendToClient ci id (OutFrame.errorFrame "invalid-message" none))
        else
          match alookup fields "type" with
          | none => (st1, sendToClient ci id (OutFrame.errorFrame "invalid-message" none))
          | some ty =>
            if ty = "join-room" then
              let roomField := alookup fields "room"
              if !isValidRoomName roomField then
                (st1, sendToClient ci id (OutFrame.errorFrame "invalid-room-name" none))
              else
                let roomName := roomField.getD ""
                match alookup st1.rooms roomName with
                | some roomSet =>
                  if cfg.maxRoomClients ≤ roomSet.length then
                    (st1, sendToClient ci id (OutFrame.errorFrame "room-full" none))
                  else handleJoinRoom st1 id roomName
                | none => handleJoinRoom st1 id roomName
            else if ty = "leave-room" then
              handleLeaveRoom st1 id
            else
              let toField := alookup fields "to"
              if truthyS toField then
                let t := toField.getD ""
                match alookup st1.clients t with
                | some ti =>
                  if ti.wsOpen && truthyS ci.room && (ti.room == ci.room) then
                    (st1, [Evt.send t (OutFrame.relay (aset fields "from" id))])
                  else
                    (st1, sendToClient ci id
                      (OutFrame.errorFrame "target-unavailable-or-different-room" (some t)))
                | none =>
                  (st1, sendToClient ci id
                    (OutFrame.errorFrame "target-unavailable-or-different-room" (some t)))
              else
                if truthyS ci.room then
                  (st1, broadcastToRoom st1 (OutFrame.relay (aset fields "from" id))
                    (ci.room.getD "") id)
                else (st1, [])

/-- Record created on admission (source lines 104–111). -/
def freshClient (cfg : Config) (now : ℚ) : Client :=
  { room := none, wsOpen := true, isAlive := true
  , rate := { tokens := cfg.messageBurst, last := now } }

/-- The connection handler `wss.on("connection")` up to and including the
`id` frame (source lines 73–115): capacity, origin and token checks in that
order, each rejecting with its close code; on acceptance register the fresh
id and send the `id` frame. -/
def handleConnection (cfg : Config) (st : ServerState) (origin token newId : String)
    (now : ℚ) : ServerState × List Evt :=
  if cfg.maxClients ≤ st.clients.length then
    (st, [Evt.closeConn 1013 "server-overloaded"])
  else if !cfg.allowedOrigins.isEmpty && !cfg.allowedOrigins.contains origin then
    (st, [Evt.closeConn 1008 "origin-not-allowed"])
  else if cfg.wsSecret != "" && token != cfg.wsSecret then
    (st, [Evt.closeConn 4003 "auth-failed"])
  else
    (⟨aset st.clients newId (freshClient cfg now), st.rooms⟩,
     [Evt.send newId (OutFrame.idFrame newId)])

/-- The connection's stream is no longer open (`readyState` left `OPEN`). -/
def markClosed (st : ServerState) (id : String) : ServerState :=
  match alookup st.clients id with
  | some ci => ⟨aset st.clients id { ci with wsOpen := false }, st.rooms⟩
  | none => st

/-- The `pong` handler (source lines 119–123): mark the client alive. -/
def markAlive (st : ServerState) (id : String) : ServerState :=
  match alookup st.clients id with
  | some ci => ⟨aset st.clients id { ci with isAlive := true }, st.rooms⟩
  | none => st

/-- The `close` handler (source lines 221–228): leave the room if in one,
then drop the record from the registry. -/
def handleClose (st : ServerState) (id : String) : ServerState × List Evt :=
  let r :=
    match alookup st.clients id with
    | some ci => if truthyS ci.room then handleLeaveRoom st id else (st, [])
    | none => (st, [])
  (⟨aerase r.1.clients id, r.1.rooms⟩, r.2)

/-- One client's turn inside the heartbeat loop (source lines 310–337):
evict a dead or closed client (terminate, delete from the registry, remove
from its room with `peer-left` fan-out and empty-room GC), else clear its
`isAlive` flag and ping it. -/
def heartbeatVisit (st : ServerState) (id : String) : ServerState × List Evt :=
  match alookup st.clients id with
  | none => (st, [])
  | some info =>
    if !info.isAlive || !info.wsOpen then
      let st1 : ServerState := ⟨aerase st.clients id, st.rooms⟩
      if truthyS info.room then
        let roomName := info.room.getD ""
        match alookup st1.rooms roomName with
        | none => (st1, [Evt.terminate id])
        | some mem =>
          let mem' := mem.erase id
          let st2 : ServerState := ⟨st1.clients, aset st1.rooms roomName mem'⟩
          let evts := broadcastToRoom st2 (OutFrame.peerLeft id) roomName id
          let st3 : ServerState :=
            if mem'.length = 0 then ⟨st2.clients, aerase st2.rooms roomName⟩ else st2
          (st3, Evt.terminate id :: evts)
      else (st1, [Evt.terminate id])
    else
      (⟨aset st.clients id { info with isAlive := false }, st.rooms⟩, [Evt.ping id])

/-- Fold of `heartbeatVisit` over a list of client ids, accumulating the
emitted events. -/
def heartbeatFold (acc : ServerState × List Evt) (ids : List String) : ServerState × List Evt :=
  ids.foldl
    (fun acc id =>
      let r := heartbeatVisit acc.1 id
      (r.1, acc.2 ++ r.2))
    acc

/-- One heartbeat tick (source lines 309–338): visit every registered client
in registry order. -/
def heartbeatTick (st : ServerState) : ServerState × List Evt :=
  heartbeatFold (st, []) (st.clients.map Prod.fst)

/-- Snapshot served by `GET /status` (source lines 31–42). -/
structure StatusSnapshot where
  totalClients : Nat
  clientList : List String
  roomsInfo : List (String × List String)
deriving DecidableEq, Repr

/-- Build the `/status` response body from the two global structures. -/
def getStatus (st : ServerState) : StatusSnapshot :=
  { totalClients := st.clients.length
  , clientList := st.clients.map Prod.fst
  , roomsInfo := st.rooms }

/-- One externally triggered transition of the server.  The `connect` step
carries the freshness of the uuid assigned to the new connection. -/
inductive Step (cfg : Config) : ServerState → ServerState → Prop
  | connect (st : ServerState) (origin token newId : String) (now : ℚ)
      (hfresh : alookup st.clients newId = none) :
      Step cfg st (handleConnection cfg st origin token newId now).1
  | message (st : ServerState) (id : String) (inb : Inbound) (now : ℚ) :
      Step cfg st (handleMessage cfg st id inb now).1
  | closeStream (st : ServerState) (id : String) :
      Step cfg st (handleClose (markClosed st id) id).1
  | dropStream (st : ServerState) (id : String) :
      Step cfg st (markClosed st id)
  | pong (st : ServerState) (id : String) :
      Step cfg st (markAlive st id)
  | heartbeat (st : ServerState) :
      Step cfg st (heartbeatTick st).1

/-- States reachable from the empty startup state. -/
inductive Reachable (cfg : Config) : ServerState → Prop
  | init : Reachable cfg ⟨[], []⟩
  | step {st st' : ServerState} : Reachable cfg st → Step cfg st st' → Reachable cfg st'

/-- Keys of an association list, in order. -/
def keys {α : Type} (l : List (String × α)) : List String :=
  l.map Prod.fst

/-- Membership of a client id in a room of the room index. -/
def roomHas (rooms : List (String × List String)) (r m : String) : Prop :=
  ∃ mem, alookup rooms r = some mem ∧ m ∈ mem

/-- The inductive invariant tying the client registry to the room index:
well-formed keys, duplicate-free member sets, no empty-string room on a
record, the membership biconditional, and room members always registered. -/
structure Inv (st : ServerState) : Prop where
  ndc : (keys st.clients).Nodup
  ndr : (keys st.rooms).Nodup
  ndm : ∀ r mem, alookup st.rooms r = some mem → mem.Nodup
  nen : ∀ id c, alookup st.clients id = some c → c.room ≠ some ""
  roomIff : ∀ id c, alookup st.clients id = some c →
      ∀ r, c.room = some r ↔ roomHas st.rooms r id
  memClient : ∀ r mem, alookup st.rooms r = some mem →
      ∀ id, id ∈ mem → ∃ c, alookup st.clients id = some c

/-- An `id` frame sent to some client. -/
def isIdFrame : Evt → Bool
  | Evt.send _ (OutFrame.idFrame _) => true
  | _ => false

/-- Membership notifications emitted by a join: `room-joined`, `peer-joined`
and `room-peers` sends. -/
def isJoinNotification : Evt → Bool
  | Evt.send _ (OutFrame.roomJoined _) => true
  | Evt.send _ (OutFrame.peerJoined _) => true
  | Evt.send _ (OutFrame.roomPeers _) => true
  | _ => false

/-- The default configuration (all environment variables unset). -/
def cfg0 : Config :=
  { maxClients := 1000, maxRoomClients := 50, messageRatePerSec := 10,
    messageBurst := 20, wsSecret := "", allowedOrigins := [] }

def stW1 : ServerState := (handleConnection cfg0 ⟨[], []⟩ "" "" "a" 0).1

def joinFrameW : List (String × String) := [("type", "join-room"), ("room", "r")]

def stW2 : ServerState := (handleMessage cfg0 stW1 "a" (Inbound.object joinFrameW) 0).1

/-- Configuration with a per-room cap of one client (`MAX_ROOM_CLIENTS=1`). -/
def cfgRF : Config := { cfg0 with maxRoomClients := 1 }

/-- A state with client `a` alone in room `r` (which is at the `cfgRF` cap)
and client `b` in no room. -/
def st5 : ServerState :=
  ⟨[("a", ⟨some "r", true, true, ⟨20, 0⟩⟩), ("b", ⟨none, true, true, ⟨20, 0⟩⟩)],
   [("r", ["a"])]⟩


/-! ### Association-list lemmas -/

theorem keys_cons {α : Type} (pk : String) (pv : α) (t : List (String × α)) :
    keys ((pk, pv) :: t) = pk :: keys t := rfl

theorem mem_keys_of_pair_mem {α : Type} {l : List (String × α)} {k : String} {v : α}
    (h : (k, v) ∈ l) : k ∈ keys l :=
  List.mem_map_of_mem Prod.fst h

theorem alookup_aset_self {α : Type} (l : List (String × α)) (k : String) (v : α) :
    alookup (aset l k v) k = some v := by
  induction l with
  | nil => simp [aset, alookup]
  | cons p t ih =>
    by_cases h : p.1 = k
    · simp [aset, alookup, h]
    · simp [aset, alookup, h, ih]

theorem alookup_aset_ne {α : Type} (l : List (String × α)) (k k' : String) (v : α)
    (h : k' ≠ k) : alookup (aset l k v) k' = alookup l k' := by
  have hkk' : ¬(k = k') := fun hh => h hh.symm
  induction l with
  | nil => simp [aset, alookup, hkk']
  | cons p t ih =>
    by_cases hp : p.1 = k
    · simp only [aset, if_pos hp, alookup]
      rw [if_neg hkk', if_neg (fun hh => hkk' (hp.symm.trans hh))]
    · simp only [aset, if_neg hp, alookup]
      by_cases hp' : p.1 = k'
      · rw [if_pos hp', if_pos hp']
      · rw [if_neg hp', if_neg hp']
        exact ih

theorem alookup_aerase_ne {α : Type} (l : List (String × α)) (k k' : String)
    (h : k' ≠ k) : alookup (aerase l k) k' = alookup l k' := by
  induction l with
  | nil => rfl
  | cons p t ih =>
    by_cases hp : p.1 = k
    · simp only [aerase, if_pos hp, alookup]
      rw [if_neg (fun hh => h (hp.symm.trans hh).symm)]
    · simp only [aerase, if_neg hp, alookup]
      by_cases hp' : p.1 = k'
      · rw [if_pos hp', if_pos hp']
      · rw [if_neg hp', if_neg hp']
        exact ih

theorem mem_keys_of_alookup {α : Type} {l : List (String × α)} {k : String} {v : α}
    (h : alookup l k = some v) : k ∈ keys l := by
  induction l with
  | nil => cases h
  | cons p t ih =>
    by_cases hp : p.1 = k
    · exact List.mem_cons.mpr (Or.inl hp.symm)
    · have h' : alookup t k = some v := by simpa [alookup, hp] using h
      exact List.mem_cons_of_mem _ (ih h')

theorem alookup_eq_none_of_not_mem {α : Type} {l : List (String × α)} {k : String}
    (h : k ∉ keys l) : alookup l k = none := by
  induction l with
  | nil => rfl
  | cons p t ih =>
    have h1 : ¬(p.1 = k) := fun hh => h (List.mem_cons.mpr (Or.inl hh.symm))
    have h2 : k ∉ keys t := fun hh => h (List.mem_cons_of_mem _ hh)
    simp only [alookup, if_neg h1]
    exact ih h2

theorem mem_of_alookup {α : Type} {l : List (String × α)} {k : String} {v : α}
    (h : alookup l k = some v) : (k, v) ∈ l := by
  induction l with
  | nil => cases h
  | cons p t ih =>
    rcases p with ⟨pk, pv⟩
    by_cases hp : pk = k
    · subst hp
      have hv : pv = v := by simpa [alookup] using h
      subst hv
      exact List.mem_cons_self _ _
    · have h' : alookup t k = some v := by simpa [alookup, hp] using h
      exact List.mem_cons_of_mem _ (ih h')

theorem alookup_of_mem_nodup {α : Type} {l : List (String × α)} {k : String} {v : α}
    (hnd : (keys l).Nodup) (h : (k, v) ∈ l) : alookup l k = some v := by
  induction l with
  | nil => cases h
  | cons p t ih =>
    rcases p with ⟨pk, pv⟩
    rw [keys_cons] at hnd
    have hnd' := List.nodup_cons.mp hnd
    rcases List.mem_cons.mp h with h1 | h2
    · have hk : k = pk := congrArg Prod.fst h1
      have hv : v = pv := congrArg Prod.snd h1
      subst hk
      subst hv
      simp [alookup]
    · have hk : ¬(pk = k) := by
        intro he
        subst he
        exact hnd'.1 (mem_keys_of_pair_mem h2)
      simp only [alookup, if_neg hk]
      exact ih hnd'.2 h2

theorem keys_aerase_sublist {α : Type} (l : List (String × α)) (k : String) :
    (keys (aerase l k)).Sublist (keys l) := by
  induction l with
  | nil => exact List.Sublist.refl _
  | cons p t ih =>
    rcases p with ⟨pk, pv⟩
    by_cases hp : pk = k
    · simp only [aerase, if_pos hp, keys_cons]
      exact List.Sublist.cons _ (List.Sublist.refl _)
    · simp only [aerase, if_neg hp, keys_cons]
      exact List.Sublist.cons₂ _ ih

theorem nodup_keys_aerase {α : Type} {l : List (String × α)} (k : String)
    (h : (keys l).Nodup) : (keys (aerase l k)).Nodup :=
  (keys_aerase_sublist l k).nodup h

theorem alookup_aerase_self {α : Type} {l : List (String × α)} (k : String)
    (h : (keys l).Nodup) : alookup (aerase l k) k = none := by
  induction l with
  | nil => rfl
  | cons p t ih =>
    rcases p with ⟨pk, pv⟩
    rw [keys_cons] at h
    have h' := List.nodup_cons.mp h
    by_cases hp : pk = k
    · subst hp
      simp only [aerase, if_pos rfl]
      exact alookup_eq_none_of_not_mem h'.1
    · simp only [aerase, if_neg hp, alookup, if_neg hp]
      exact ih h'.2

theorem mem_keys_aset {α : Type} (l : List (String × α)) (k k' : String) (v : α) :
    k' ∈ keys (aset l k v) ↔ k' ∈ keys l ∨ k' = k := by
  induction l with
  | nil => simp [aset, keys]
  | cons p t ih =>
    rcases p with ⟨pk, pv⟩
    by_cases hp : pk = k
    · subst hp
      have ha : aset ((pk, pv) :: t) pk v = (pk, v) :: t := by
        simp [aset]
      rw [ha, keys_cons, keys_cons, List.mem_cons]
      tauto
    · simp only [aset, if_neg hp, keys_cons, List.mem_cons]
      rw [ih]
      tauto

theorem nodup_keys_aset {α : Type} {l : List (String × α)} (k : String) (v : α)
    (h : (keys l).Nodup) : (keys (aset l k v)).Nodup := by
  induction l with
  | nil => simp [aset, keys]
  | cons p t ih =>
    rcases p with ⟨pk, pv⟩
    rw [keys_cons] at h
    have h' := List.nodup_cons.mp h
    by_cases hp : pk = k
    · subst hp
      simp only [aset, if_pos rfl, keys_cons]
      exact List.nodup_cons.mpr ⟨h'.1, h'.2⟩
    · simp only [aset, if_neg hp, keys_cons]
      refine List.nodup_cons.mpr ⟨?_, ih h'.2⟩
      intro hmem
      rcases (mem_keys_aset t k pk v).mp hmem with h1 | h2
      · exact h'.1 h1
      · exact hp h2

theorem mem_sadd (l : List String) (x y : String) :
    y ∈ sadd l x ↔ y ∈ l ∨ y = x := by
  unfold sadd
  by_cases h : x ∈ l
  · rw [if_pos h]
    constructor
    · exact Or.inl
    · rintro (h1 | h1)
      · exact h1
      · exact h1 ▸ h
  · rw [if_neg h]
    simp [List.mem_append]

theorem nodup_sadd {l : List String} (x : String) (h : l.Nodup) :
    (sadd l x).Nodup := by
  unfold sadd
  by_cases hx : x ∈ l
  · rwa [if_pos hx]
  · rw [if_neg hx]
    refine List.Nodup.append h (List.nodup_singleton x) ?_
    intro a hal hax
    rw [List.mem_singleton] at hax
    subst hax
    exact hx hal

/-! ### Reachable-state invariant -/

theorem truthyS_some {s : String} (h : s ≠ "") : truthyS (some s) = true := by
  simp [truthyS, bne_iff_ne, h]

theorem truthyS_none : truthyS none = false := rfl

theorem truthyS_eq_true {o : Option String} (h : truthyS o = true) :
    ∃ s, o = some s ∧ s ≠ "" := by
  cases o with
  | none => cases h
  | some s =>
    refine ⟨s, rfl, ?_⟩
    simpa [truthyS, bne_iff_ne] using h

theorem isValidRoomName_spec {o : Option String} (h : isValidRoomName o = true) :
    ∃ s, o = some s ∧ s ≠ "" := by
  cases o with
  | none => cases h
  | some s =>
    refine ⟨s, rfl, ?_⟩
    intro he
    subst he
    simp [isValidRoomName] at h

theorem inv_init : Inv ⟨[], []⟩ := by
  refine ⟨List.nodup_nil, List.nodup_nil, ?_, ?_, ?_, ?_⟩ <;>
    intro _ _ h <;> cases h

/-- Registry membership of a room member, with its room field. -/
theorem Inv.room_of_mem {st : ServerState} (hinv : Inv st) {r : String}
    {mem : List String} {m : String} (hr : alookup st.rooms r = some mem)
    (hm : m ∈ mem) : ∃ c, alookup st.clients m = some c ∧ c.room = some r := by
  obtain ⟨c, hc⟩ := hinv.memClient r mem hr m hm
  exact ⟨c, hc, (hinv.roomIff m c hc r).mpr ⟨mem, hr, hm⟩⟩

/-- No client id is a member of two distinct rooms. -/
theorem Inv.unique_room {st : ServerState} (hinv : Inv st) {r r' m : String}
    (h1 : roomHas st.rooms r m) (h2 : roomHas st.rooms r' m) : r = r' := by
  obtain ⟨mem, hr, hm⟩ := h1
  obtain ⟨mem', hr', hm'⟩ := h2
  obtain ⟨c, hc, hcr⟩ := hinv.room_of_mem hr hm
  obtain ⟨c', hc', hcr'⟩ := hinv.room_of_mem hr' hm'
  rw [hc] at hc'
  cases hc'
  rw [hcr] at hcr'
  exact Option.some.inj hcr'

/-- Replacing one client record by one with the same room field preserves the
invariant (covers rate-bucket, liveness-flag and stream-state updates). -/
theorem inv_aset_same_room {st : ServerState} (hinv : Inv st) {id : String}
    {ci ci' : Client} (hc : alookup st.clients id = some ci)
    (hroom : ci'.room = ci.room) : Inv ⟨aset st.clients id ci', st.rooms⟩ := by
  obtain ⟨ndc, ndr, ndm, nen, riff, mcl⟩ := hinv
  refine ⟨nodup_keys_aset id ci' ndc, ndr, ndm, ?_, ?_, ?_⟩
  · intro j c hj
    by_cases hji : j = id
    · subst hji
      rw [alookup_aset_self] at hj
      cases hj
      rw [hroom]
      exact nen j ci hc
    · rw [alookup_aset_ne _ _ _ _ hji] at hj
      exact nen j c hj
  · intro j c hj r
    by_cases hji : j = id
    · subst hji
      rw [alookup_aset_self] at hj
      cases hj
      rw [hroom]
      exact riff j ci hc r
    · rw [alookup_aset_ne _ _ _ _ hji] at hj
      exact riff j c hj r
  · intro r mem hr j hm
    obtain ⟨c, hcj⟩ := mcl r mem hr j hm
    by_cases hji : j = id
    · subst hji
      exact ⟨ci', alookup_aset_self _ _ _⟩
    · exact ⟨c, by rw [alookup_aset_ne _ _ _ _ hji]; exact hcj⟩

/-- Deleting a client that is in no room preserves the invariant. -/
theorem inv_aerase_client {st : ServerState} (hinv : Inv st) {id : String}
    (hnoroom : ∀ ci, alookup st.clients id = some ci → ci.room = none) :
    Inv ⟨aerase st.clients id, st.rooms⟩ := by
  obtain ⟨ndc, ndr, ndm, nen, riff, mcl⟩ := hinv
  refine ⟨nodup_keys_aerase id ndc, ndr, ndm, ?_, ?_, ?_⟩
  · intro j c hj
    by_cases hji : j = id
    · subst hji
      rw [alookup_aerase_self j ndc] at hj
      cases hj
    · rw [alookup_aerase_ne _ _ _ hji] at hj
      exact nen j c hj
  · intro j c hj r
    by_cases hji : j = id
    · subst hji
      rw [alookup_aerase_self j ndc] at hj
      cases hj
    · rw [alookup_aerase_ne _ _ _ hji] at hj
      exact riff j c hj r
  · intro r mem hr j hm
    obtain ⟨c, hcj⟩ := mcl r mem hr j hm
    by_cases hji : j = id
    · subst hji
      have hcr : c.room = some r := (riff j c hcj r).mpr ⟨mem, hr, hm⟩
      rw [hnoroom c hcj] at hcr
      cases hcr
    · exact ⟨c, by rw [alookup_aerase_ne _ _ _ hji]; exact hcj⟩

/-! ### Equations and invariant preservation for `handleLeaveRoom` -/

theorem handleLeaveRoom_no_client {st : ServerState} {clientId : String}
    (hc : alookup st.clients clientId = none) :
    handleLeaveRoom st clientId = (st, []) := by
  unfold handleLeaveRoom
  rw [hc]

theorem handleLeaveRoom_no_room {st : ServerState} {clientId : String} {ci : Client}
    (hc : alookup st.clients clientId = some ci) (ht : truthyS ci.room = false) :
    handleLeaveRoom st clientId = (st, []) := by
  unfold handleLeaveRoom
  rw [hc]
  simp [ht]

theorem handleLeaveRoom_noset {st : ServerState} {clientId : String} {ci : Client}
    {R : String}
    (hc : alookup st.clients clientId = some ci) (hro : ci.room = some R) (hR : R ≠ "")
    (hm : alookup st.rooms R = none) :
    handleLeaveRoom st clientId =
      (⟨aset st.clients clientId { ci with room := none }, st.rooms⟩,
       if ci.wsOpen then [Evt.send clientId (OutFrame.roomLeft R)] else []) := by
  unfold handleLeaveRoom
  simp only [hc, hro, Option.getD_some, truthyS_some hR, hm, if_true, List.nil_append]

theorem handleLeaveRoom_found {st : ServerState} {clientId : String} {ci : Client}
    {R : String} {mem : List String}
    (hc : alookup st.clients clientId = some ci) (hro : ci.room = some R) (hR : R ≠ "")
    (hm : alookup st.rooms R = some mem) :
    handleLeaveRoom st clientId =
      (⟨aset st.clients clientId { ci with room := none },
        if (mem.erase clientId).length = 0
          then aerase (aset st.rooms R (mem.erase clientId)) R
          else aset st.rooms R (mem.erase clientId)⟩,
       broadcastToRoom ⟨st.clients, aset st.rooms R (mem.erase clientId)⟩
           (OutFrame.peerLeft clientId) R clientId
         ++ (if ci.wsOpen then [Evt.send clientId (OutFrame.roomLeft R)] else [])) := by
  unfold handleLeaveRoom
  simp only [hc, hro, Option.getD_some, truthyS_some hR, hm, if_true, List.nil_append]

theorem handleLeaveRoom_self_lookup {st : ServerState} {clientId : String} {ci : Client}
    (hc : alookup st.clients clientId = some ci) (ht : truthyS ci.room = true) :
    alookup (handleLeaveRoom st clientId).1.clients clientId
      = some { ci with room := none } := by
  obtain ⟨R, hro, hR⟩ := truthyS_eq_true ht
  cases hm : alookup st.rooms R with
  | none =>
    rw [handleLeaveRoom_noset hc hro hR hm]
    exact alookup_aset_self _ _ _
  | some mem =>
    rw [handleLeaveRoom_found hc hro hR hm]
    exact alookup_aset_self _ _ _

theorem handleLeaveRoom_other_lookup {st : ServerState} {clientId : String} (j : String)
    (hj : j ≠ clientId) :
    alookup (handleLeaveRoom st clientId).1.clients j = alookup st.clients j := by
  cases hc : alookup st.clients clientId with
  | none => rw [handleLeaveRoom_no_client hc]
  | some ci =>
    cases ht : truthyS ci.room with
    | false => rw [handleLeaveRoom_no_room hc ht]
    | true =>
      obtain ⟨R, hro, hR⟩ := truthyS_eq_true ht
      cases hm : alookup st.rooms R with
      | none =>
        rw [handleLeaveRoom_noset hc hro hR hm]
        exact alookup_aset_ne _ _ _ _ hj
      | some mem =>
        rw [handleLeaveRoom_found hc hro hR hm]
        exact alookup_aset_ne _ _ _ _ hj

/-- Invariant preservation for the membership change done by a leave: drop the
client from its room's set, garbage-collect the room if now empty, clear the
client's room field. -/
theorem inv_leave_core {st : ServerState} (hinv : Inv st) {clientId : String}
    {ci : Client} {R : String} {mem : List String}
    (hc : alookup st.clients clientId = some ci) (hro : ci.room = some R)
    (hm : alookup st.rooms R = some mem) :
    Inv ⟨aset st.clients clientId { ci with room := none },
      if (mem.erase clientId).length = 0
        then aerase (aset st.rooms R (mem.erase clientId)) R
        else aset st.rooms R (mem.erase clientId)⟩ := by
  obtain ⟨ndc, ndr, ndm, nen, riff, mcl⟩ := hinv
  have hmemnd : mem.Nodup := ndm R mem hm
  set mem' := mem.erase clientId with hmem'
  set rooms1 := aset st.rooms R mem' with hrooms1
  have hndr1 : (keys rooms1).Nodup := nodup_keys_aset R mem' ndr
  have hlookNe : ∀ r, r ≠ R →
      alookup (if mem'.length = 0 then aerase rooms1 R else rooms1) r
        = alookup st.rooms r := by
    intro r hr
    by_cases h0 : mem'.length = 0
    · rw [if_pos h0, alookup_aerase_ne _ _ _ hr, hrooms1, alookup_aset_ne _ _ _ _ hr]
    · rw [if_neg h0, hrooms1, alookup_aset_ne _ _ _ _ hr]
  have hlookR : alookup (if mem'.length = 0 then aerase rooms1 R else rooms1) R
      = if mem'.length = 0 then none else some mem' := by
    by_cases h0 : mem'.length = 0
    · rw [if_pos h0, if_pos h0, alookup_aerase_self R hndr1]
    · rw [if_neg h0, if_neg h0, hrooms1, alookup_aset_self]
  refine ⟨nodup_keys_aset clientId _ ndc, ?_, ?_, ?_, ?_, ?_⟩
  · by_cases h0 : mem'.length = 0
    · rw [if_pos h0]
      exact nodup_keys_aerase R hndr1
    · rw [if_neg h0]
      exact hndr1
  · intro q mem2 hr2
    by_cases hrR : q = R
    · rw [hrR, hlookR] at hr2
      by_cases h0 : mem'.length = 0
      · rw [if_pos h0] at hr2
        cases hr2
      · rw [if_neg h0] at hr2
        cases hr2
        exact hmemnd.erase _
    · rw [hlookNe q hrR] at hr2
      exact ndm q mem2 hr2
  · intro j c hj
    by_cases hji : j = clientId
    · subst hji
      rw [alookup_aset_self] at hj
      cases hj
      simp
    · rw [alookup_aset_ne _ _ _ _ hji] at hj
      exact nen j c hj
  · intro j c hj q
    by_cases hji : j = clientId
    · subst hji
      rw [alookup_aset_self] at hj
      cases hj
      constructor
      · intro h
        simp at h
      · rintro ⟨mem2, hm2, hjm⟩
        by_cases hrR : q = R
        · rw [hrR, hlookR] at hm2
          by_cases h0 : mem'.length = 0
          · rw [if_pos h0] at hm2
            cases hm2
          · rw [if_neg h0] at hm2
            cases hm2
            exact absurd rfl ((List.Nodup.mem_erase_iff hmemnd).mp hjm).1
        · rw [hlookNe q hrR] at hm2
          have hqro : ci.room = some q := (riff j ci hc q).mpr ⟨mem2, hm2, hjm⟩
          rw [hro] at hqro
          exact absurd (Option.some.inj hqro).symm hrR
    · rw [alookup_aset_ne _ _ _ _ hji] at hj
      by_cases hrR : q = R
      · rw [hrR]
        constructor
        · intro hcr
          obtain ⟨mem0, hm0, hjm0⟩ := (riff j c hj R).mp hcr
          rw [hm] at hm0
          cases hm0
          have hj' : j ∈ mem' := (List.mem_erase_of_ne hji).mpr hjm0
          have hne : ¬mem'.length = 0 := by
            rw [List.length_eq_zero]
            exact List.ne_nil_of_mem hj'
          exact ⟨mem', by rw [hlookR, if_neg hne], hj'⟩
        · rintro ⟨mem2, hm2, hjm⟩
          rw [hlookR] at hm2
          by_cases h0 : mem'.length = 0
          · rw [if_pos h0] at hm2
            cases hm2
          · rw [if_neg h0] at hm2
            cases hm2
            exact (riff j c hj R).mpr ⟨mem, hm, List.mem_of_mem_erase hjm⟩
      · constructor
        · intro hcr
          obtain ⟨mem0, hm0, hjm0⟩ := (riff j c hj q).mp hcr
          exact ⟨mem0, by rw [hlookNe q hrR]; exact hm0, hjm0⟩
        · rintro ⟨mem2, hm2, hjm⟩
          rw [hlookNe q hrR] at hm2
          exact (riff j c hj q).mpr ⟨mem2, hm2, hjm⟩
  · intro q mem2 hr2 j hjm
    have hjold : ∃ c, alookup st.clients j = some c := by
      by_cases hrR : q = R
      · rw [hrR, hlookR] at hr2
        by_cases h0 : mem'.length = 0
        · rw [if_pos h0] at hr2
          cases hr2
        · rw [if_neg h0] at hr2
          cases hr2
          exact mcl R mem hm j (List.mem_of_mem_erase hjm)
      · rw [hlookNe q hrR] at hr2
        exact mcl q mem2 hr2 j hjm
    obtain ⟨c, hcj⟩ := hjold
    by_cases hji : j = clientId
    · subst hji
      exact ⟨{ ci with room := none }, alookup_aset_self _ _ _⟩
    · exact ⟨c, by rw [alookup_aset_ne _ _ _ _ hji]; exact hcj⟩

theorem inv_handleLeaveRoom {st : ServerState} (hinv : Inv st) (clientId : String) :
    Inv (handleLeaveRoom st clientId).1 := by
  cases hc : alookup st.clients clientId with
  | none =>
    rw [handleLeaveRoom_no_client hc]
    exact hinv
  | some ci =>
    cases ht : truthyS ci.room with
    | false =>
      rw [handleLeaveRoom_no_room hc ht]
      exact hinv
    | true =>
      obtain ⟨R, hro, hR⟩ := truthyS_eq_true ht
      cases hm : alookup st.rooms R with
      | none =>
        obtain ⟨mem0, hm0, _⟩ := (hinv.roomIff clientId ci hc R).mp hro
        rw [hm] at hm0
        cases hm0
      | some mem =>
        rw [handleLeaveRoom_found hc hro hR hm]
        exact inv_leave_core hinv hc hro hm

/-! ### Equations and invariant preservation for `handleJoinRoom` -/

theorem room_none_of_not_truthy {st : ServerState} {id : String} {ci : Client}
    (hinv : Inv st) (hc : alookup st.clients id = some ci)
    (ht : truthyS ci.room = false) : ci.room = none := by
  cases hro : ci.room with
  | none => rfl
  | some s =>
    by_cases hs : s = ""
    · subst hs
      exact absurd hro (hinv.nen id ci hc)
    · rw [hro, truthyS_some hs] at ht
      cases ht

theorem handleJoinRoom_no_client {st : ServerState} {clientId : String}
    (hc : alookup st.clients clientId = none) (roomName : String) :
    handleJoinRoom st clientId roomName = (st, []) := by
  unfold handleJoinRoom
  rw [hc]

theorem handleJoinRoom_eq_no_prev {st : ServerState} {clientId : String} {ci0 : Client}
    (hc : alookup st.clients clientId = some ci0) (ht : truthyS ci0.room = false)
    (roomName : String) :
    handleJoinRoom st clientId roomName = joinCore st clientId ci0 roomName := by
  have hne : ¬(truthyS ci0.room = true) := by simp [ht]
  unfold handleJoinRoom
  simp only [hc, if_neg hne, List.nil_append, Prod.mk.eta]

theorem handleJoinRoom_eq_prev {st : ServerState} {clientId : String} {ci0 : Client}
    (hc : alookup st.clients clientId = some ci0) (ht : truthyS ci0.room = true)
    (roomName : String) :
    handleJoinRoom st clientId roomName =
      ((joinCore (handleLeaveRoom st clientId).1 clientId { ci0 with room := none }
          roomName).1,
       (handleLeaveRoom st clientId).2
         ++ (joinCore (handleLeaveRoom st clientId).1 clientId { ci0 with room := none }
              roomName).2) := by
  unfold handleJoinRoom
  simp only [hc, ht, if_true, handleLeaveRoom_self_lookup hc ht]

/-- Invariant preservation for the membership change done by a join, for a
client currently in no room. -/
theorem inv_joinCore {st1 : ServerState} (hinv : Inv st1) {clientId : String}
    {ci1 : Client} (hc : alookup st1.clients clientId = some ci1)
    (hro : ci1.room = none) {roomName : String} (hR : roomName ≠ "") :
    Inv (joinCore st1 clientId ci1 roomName).1 := by
  obtain ⟨ndc, ndr, ndm, nen, riff, mcl⟩ := hinv
  set mem0 := (alookup st1.rooms roomName).getD [] with hmem0
  set mem := sadd mem0 clientId with hmemdef
  have hmem0nd : mem0.Nodup := by
    rw [hmem0]
    cases hl : alookup st1.rooms roomName with
    | none => simp
    | some m => simpa using ndm roomName m hl
  have hmemnd : mem.Nodup := nodup_sadd clientId hmem0nd
  have hnotin : ∀ q, ¬roomHas st1.rooms q clientId := by
    intro q hq
    obtain ⟨m, hql, hqm⟩ := hq
    have hqro := (riff clientId ci1 hc q).mpr ⟨m, hql, hqm⟩
    rw [hro] at hqro
    cases hqro
  have hmem0sub : ∀ j, j ∈ mem0 → roomHas st1.rooms roomName j := by
    intro j hj
    rw [hmem0] at hj
    cases hl : alookup st1.rooms roomName with
    | none =>
      rw [hl] at hj
      simp at hj
    | some m =>
      rw [hl] at hj
      exact ⟨m, hl, by simpa using hj⟩
  have hmem0of : ∀ j m, alookup st1.rooms roomName = some m → j ∈ m → j ∈ mem0 := by
    intro j m hl hjm
    rw [hmem0, hl]
    simpa using hjm
  show Inv ⟨aset st1.clients clientId { ci1 with room := some roomName },
    aset st1.rooms roomName mem⟩
  refine ⟨nodup_keys_aset clientId _ ndc, nodup_keys_aset roomName _ ndr, ?_, ?_, ?_, ?_⟩
  · intro q mem2 hr2
    by_cases hq : q = roomName
    · rw [hq, alookup_aset_self] at hr2
      cases hr2
      exact hmemnd
    · rw [alookup_aset_ne _ _ _ _ hq] at hr2
      exact ndm q mem2 hr2
  · intro j c hj
    by_cases hji : j = clientId
    · subst hji
      rw [alookup_aset_self] at hj
      cases hj
      intro h
      simp at h
      exact hR h
    · rw [alookup_aset_ne _ _ _ _ hji] at hj
      exact nen j c hj
  · intro j c hj q
    by_cases hji : j = clientId
    · subst hji
      rw [alookup_aset_self] at hj
      cases hj
      constructor
      · intro h
        simp only at h
        have hq : roomName = q := by simpa using h
        rw [← hq]
        exact ⟨mem, alookup_aset_self _ _ _, (mem_sadd mem0 j j).mpr (Or.inr rfl)⟩
      · rintro ⟨m2, hm2, hjm⟩
        by_cases hq : q = roomName
        · rw [hq]
        · rw [alookup_aset_ne _ _ _ _ hq] at hm2
          exact absurd ⟨m2, hm2, hjm⟩ (hnotin q)
    · rw [alookup_aset_ne _ _ _ _ hji] at hj
      by_cases hq : q = roomName
      · rw [hq]
        constructor
        · intro hcr
          obtain ⟨m, hl, hjm⟩ := (riff j c hj roomName).mp (hq ▸ hcr)
          refine ⟨mem, alookup_aset_self _ _ _, ?_⟩
          exact (mem_sadd mem0 clientId j).mpr (Or.inl (hmem0of j m hl hjm))
        · rintro ⟨m2, hm2, hjm⟩
          rw [alookup_aset_self] at hm2
          cases hm2
          rcases (mem_sadd mem0 clientId j).mp hjm with h1 | h1
          · obtain ⟨m, hl, hjm'⟩ := hmem0sub j h1
            exact (riff j c hj roomName).mpr ⟨m, hl, hjm'⟩
          · exact absurd h1 hji
      · constructor
        · intro hcr
          obtain ⟨m, hl, hjm⟩ := (riff j c hj q).mp hcr
          exact ⟨m, by rw [alookup_aset_ne _ _ _ _ hq]; exact hl, hjm⟩
        · rintro ⟨m2, hm2, hjm⟩
          rw [alookup_aset_ne _ _ _ _ hq] at hm2
          exact (riff j c hj q).mpr ⟨m2, hm2, hjm⟩
  · intro q mem2 hr2 j hjm
    by_cases hji : j = clientId
    · subst hji
      exact ⟨{ ci1 with room := some roomName }, alookup_aset_self _ _ _⟩
    · have hjold : ∃ c, alookup st1.clients j = some c := by
        by_cases hq : q = roomName
        · rw [hq, alookup_aset_self] at hr2
          cases hr2
          rcases (mem_sadd mem0 clientId j).mp hjm with h1 | h1
          · obtain ⟨m, hl, hjm'⟩ := hmem0sub j h1
            exact mcl roomName m hl j hjm'
          · exact absurd h1 hji
        · rw [alookup_aset_ne _ _ _ _ hq] at hr2
          exact mcl q mem2 hr2 j hjm
      obtain ⟨c, hcj⟩ := hjold
      exact ⟨c, by rw [alookup_aset_ne _ _ _ _ hji]; exact hcj⟩

theorem inv_handleJoinRoom {st : ServerState} (hinv : Inv st) (clientId : String)
    {roomName : String} (hR : roomName ≠ "") :
    Inv (handleJoinRoom st clientId roomName).1 := by
  cases hc : alookup st.clients clientId with
  | none =>
    rw [handleJoinRoom_no_client hc]
    exact hinv
  | some ci0 =>
    cases ht : truthyS ci0.room with
    | false =>
      rw [handleJoinRoom_eq_no_prev hc ht]
      exact inv_joinCore hinv hc (room_none_of_not_truthy hinv hc ht) hR
    | true =>
      rw [handleJoinRoom_eq_prev hc ht]
      exact inv_joinCore (inv_handleLeaveRoom hinv clientId)
        (handleLeaveRoom_self_lookup hc ht) rfl hR

/-! ### Invariant preservation for the remaining transitions -/

theorem inv_handleConnection (cfg : Config) {st : ServerState} (hinv : Inv st)
    {newId : String} (hfresh : alookup st.clients newId = none)
    (origin token : String) (now : ℚ) :
    Inv (handleConnection cfg st origin token newId now).1 := by
  unfold handleConnection
  split
  · exact hinv
  split
  · exact hinv
  split
  · exact hinv
  obtain ⟨ndc, ndr, ndm, nen, riff, mcl⟩ := hinv
  refine ⟨nodup_keys_aset newId _ ndc, ndr, ndm, ?_, ?_, ?_⟩
  · intro j c hj
    by_cases hji : j = newId
    · subst hji
      rw [alookup_aset_self] at hj
      cases hj
      simp [freshClient]
    · rw [alookup_aset_ne _ _ _ _ hji] at hj
      exact nen j c hj
  · intro j c hj q
    by_cases hji : j = newId
    · subst hji
      rw [alookup_aset_self] at hj
      cases hj
      constructor
      · intro h
        simp [freshClient] at h
      · rintro ⟨m, hl, hm⟩
        obtain ⟨c0, hc0⟩ := mcl q m hl j hm
        rw [hfresh] at hc0
        cases hc0
    · rw [alookup_aset_ne _ _ _ _ hji] at hj
      exact riff j c hj q
  · intro q m hl j hm
    obtain ⟨c0, hc0⟩ := mcl q m hl j hm
    by_cases hji : j = newId
    · subst hji
      rw [hfresh] at hc0
      cases hc0
    · exact ⟨c0, by rw [alookup_aset_ne _ _ _ _ hji]; exact hc0⟩

theorem inv_markClosed {st : ServerState} (hinv : Inv st) (id : String) :
    Inv (markClosed st id) := by
  unfold markClosed
  cases hc : alookup st.clients id with
  | none => exact hinv
  | some ci => exact inv_aset_same_room hinv hc rfl

theorem inv_markAlive {st : ServerState} (hinv : Inv st) (id : String) :
    Inv (markAlive st id) := by
  unfold markAlive
  cases hc : alookup st.clients id with
  | none => exact hinv
  | some ci => exact inv_aset_same_room hinv hc rfl

theorem inv_handleClose {st : ServerState} (hinv : Inv st) (id : String) :
    Inv (handleClose st id).1 := by
  unfold handleClose
  cases hc : alookup st.clients id with
  | none =>
    simp only [hc]
    exact inv_aerase_client hinv (fun ci' hci' => by rw [hc] at hci'; cases hci')
  | some ci =>
    simp only [hc]
    cases ht : truthyS ci.room with
    | false =>
      rw [if_neg (by decide : ¬((false : Bool) = true))]
      exact inv_aerase_client hinv (fun ci' hci' => by
        rw [hc] at hci'
        cases hci'
        exact room_none_of_not_truthy hinv hc ht)
    | true =>
      rw [if_pos (by decide : (true : Bool) = true)]
      exact inv_aerase_client (inv_handleLeaveRoom hinv id) (fun ci' hci' => by
        rw [handleLeaveRoom_self_lookup hc ht] at hci'
        cases hci'
        rfl)

/-- Invariant preservation for a heartbeat eviction of a client that was in a
room: the registry entry is deleted, the client is removed from its room's
set, the room is garbage-collected if it became empty. -/
theorem inv_evict_core {st : ServerState} (hinv : Inv st) {id : String} {info : Client}
    {R : String} {mem : List String}
    (hc : alookup st.clients id = some info) (hro : info.room = some R)
    (hm : alookup st.rooms R = some mem) :
    Inv ⟨aerase st.clients id,
      if (mem.erase id).length = 0
        then aerase (aset st.rooms R (mem.erase id)) R
        else aset st.rooms R (mem.erase id)⟩ := by
  obtain ⟨ndc, ndr, ndm, nen, riff, mcl⟩ := hinv
  have hmemnd : mem.Nodup := ndm R mem hm
  set mem' := mem.erase id with hmem'
  set rooms1 := aset st.rooms R mem' with hrooms1
  have hndr1 : (keys rooms1).Nodup := nodup_keys_aset R mem' ndr
  have hlookNe : ∀ q, q ≠ R →
      alookup (if mem'.length = 0 then aerase rooms1 R else rooms1) q
        = alookup st.rooms q := by
    intro q hq
    by_cases h0 : mem'.length = 0
    · rw [if_pos h0, alookup_aerase_ne _ _ _ hq, hrooms1, alookup_aset_ne _ _ _ _ hq]
    · rw [if_neg h0, hrooms1, alookup_aset_ne _ _ _ _ hq]
  have hlookR : alookup (if mem'.length = 0 then aerase rooms1 R else rooms1) R
      = if mem'.length = 0 then none else some mem' := by
    by_cases h0 : mem'.length = 0
    · rw [if_pos h0, if_pos h0, alookup_aerase_self R hndr1]
    · rw [if_neg h0, if_neg h0, hrooms1, alookup_aset_self]
  refine ⟨nodup_keys_aerase id ndc, ?_, ?_, ?_, ?_, ?_⟩
  · by_cases h0 : mem'.length = 0
    · rw [if_pos h0]
      exact nodup_keys_aerase R hndr1
    · rw [if_neg h0]
      exact hndr1
  · intro q mem2 hr2
    by_cases hrR : q = R
    · rw [hrR, hlookR] at hr2
      by_cases h0 : mem'.length = 0
      · rw [if_pos h0] at hr2
        cases hr2
      · rw [if_neg h0] at hr2
        cases hr2
        exact hmemnd.erase _
    · rw [hlookNe q hrR] at hr2
      exact ndm q mem2 hr2
  · intro j c hj
    by_cases hji : j = id
    · subst hji
      rw [alookup_aerase_self j ndc] at hj
      cases hj
    · rw [alookup_aerase_ne _ _ _ hji] at hj
      exact nen j c hj
  · intro j c hj q
    by_cases hji : j = id
    · subst hji
      rw [alookup_aerase_self j ndc] at hj
      cases hj
    · rw [alookup_aerase_ne _ _ _ hji] at hj
      by_cases hrR : q = R
      · rw [hrR]
        constructor
        · intro hcr
          obtain ⟨mem0, hm0, hjm0⟩ := (riff j c hj R).mp hcr
          rw [hm] at hm0
          cases hm0
          have hj' : j ∈ mem' := (List.mem_erase_of_ne hji).mpr hjm0
          have hne : ¬mem'.length = 0 := by
            rw [List.length_eq_zero]
            exact List.ne_nil_of_mem hj'
          exact ⟨mem', by rw [hlookR, if_neg hne], hj'⟩
        · rintro ⟨mem2, hm2, hjm⟩
          rw [hlookR] at hm2
          by_cases h0 : mem'.length = 0
          · rw [if_pos h0] at hm2
            cases hm2
          · rw [if_neg h0] at hm2
            cases hm2
            exact (riff j c hj R).mpr ⟨mem, hm, List.mem_of_mem_erase hjm⟩
      · constructor
        · intro hcr
          obtain ⟨mem0, hm0, hjm0⟩ := (riff j c hj q).mp hcr
          exact ⟨mem0, by rw [hlookNe q hrR]; exact hm0, hjm0⟩
        · rintro ⟨mem2, hm2, hjm⟩
          rw [hlookNe q hrR] at hm2
          exact (riff j c hj q).mpr ⟨mem2, hm2, hjm⟩
  · intro q mem2 hr2 j hjm
    have hjne : j ≠ id := by
      intro hji
      by_cases hrR : q = R
      · rw [hrR, hlookR] at hr2
        by_cases h0 : mem'.length = 0
        · rw [if_pos h0] at hr2
          cases hr2
        · rw [if_neg h0] at hr2
          have hmm : mem' = mem2 := Option.some.inj hr2
          rw [← hmm, hji] at hjm
          exact absurd rfl ((List.Nodup.mem_erase_iff hmemnd).mp hjm).1
      · rw [hlookNe q hrR] at hr2
        rw [hji] at hjm
        have hqro : info.room = some q := (riff id info hc q).mpr ⟨mem2, hr2, hjm⟩
        rw [hro] at hqro
        exact absurd (Option.some.inj hqro).symm hrR
    have hjold : ∃ c, alookup st.clients j = some c := by
      by_cases hrR : q = R
      · rw [hrR, hlookR] at hr2
        by_cases h0 : mem'.length = 0
        · rw [if_pos h0] at hr2
          cases hr2
        · rw [if_neg h0] at hr2
          have hmm : mem' = mem2 := Option.some.inj hr2
          rw [← hmm] at hjm
          exact mcl R mem hm j (List.mem_of_mem_erase hjm)
      · rw [hlookNe q hrR] at hr2
        exact mcl q mem2 hr2 j hjm
    obtain ⟨c, hcj⟩ := hjold
    exact ⟨c, by rw [alookup_aerase_ne _ _ _ hjne]; exact hcj⟩

theorem inv_heartbeatVisit {st : ServerState} (hinv : Inv st) (id : String) :
    Inv (heartbeatVisit st id).1 := by
  unfold heartbeatVisit
  cases hc : alookup st.clients id with
  | none =>
    simp only [hc]
    exact hinv
  | some info =>
    simp only [hc]
    by_cases hd : (!info.isAlive || !info.wsOpen) = true
    · rw [if_pos hd]
      cases ht : truthyS info.room with
      | false =>
        rw [if_neg (by decide : ¬((false : Bool) = true))]
        exact inv_aerase_client hinv (fun ci' hci' => by
          rw [hc] at hci'
          cases hci'
          exact room_none_of_not_truthy hinv hc ht)
      | true =>
        rw [if_pos (by decide : (true : Bool) = true)]
        obtain ⟨R, hro, hR⟩ := truthyS_eq_true ht
        obtain ⟨mem, hm, hidm⟩ := (hinv.roomIff id info hc R).mp hro
        rw [hro]
        simp only [Option.getD_some, hm]
        have hco : (if (mem.erase id).length = 0
              then (⟨aerase st.clients id,
                aerase (aset st.rooms R (mem.erase id)) R⟩ : ServerState)
              else ⟨aerase st.clients id, aset st.rooms R (mem.erase id)⟩)
            = ⟨aerase st.clients id,
              if (mem.erase id).length = 0
                then aerase (aset st.rooms R (mem.erase id)) R
                else aset st.rooms R (mem.erase id)⟩ := by
          by_cases h0 : (mem.erase id).length = 0
          · rw [if_pos h0, if_pos h0]
          · rw [if_neg h0, if_neg h0]
        rw [hco]
        exact inv_evict_core hinv hc hro hm
    · rw [if_neg hd]
      exact inv_aset_same_room hinv hc rfl

theorem inv_heartbeatFold : ∀ (ids : List String) (acc : ServerState × List Evt),
    Inv acc.1 → Inv (heartbeatFold acc ids).1 := by
  intro ids
  induction ids with
  | nil =>
    intro acc h
    exact h
  | cons x t ih =>
    intro acc h
    have hcons : heartbeatFold acc (x :: t)
        = heartbeatFold ((heartbeatVisit acc.1 x).1, acc.2 ++ (heartbeatVisit acc.1 x).2) t :=
      rfl
    rw [hcons]
    exact ih _ (inv_heartbeatVisit h x)

theorem inv_heartbeatTick {st : ServerState} (hinv : Inv st) :
    Inv (heartbeatTick st).1 :=
  inv_heartbeatFold _ _ hinv

theorem inv_handleMessage (cfg : Config) {st : ServerState} (hinv : Inv st)
    (id : String) (inb : Inbound) (now : ℚ) :
    Inv (handleMessage cfg st id inb now).1 := by
  unfold handleMessage
  cases hc : alookup st.clients id with
  | none =>
    simp only [hc]
    exact hinv
  | some ci0 =>
    simp only [hc]
    have hinv1 : Inv (⟨aset st.clients id { ci0 with rate := (rateAllow cfg now ci0.rate).2 },
        st.rooms⟩ : ServerState) := inv_aset_same_room hinv hc rfl
    cases har : (rateAllow cfg now ci0.rate).1 with
    | false =>
      rw [if_pos (by decide : (!false) = true)]
      exact hinv1
    | true =>
      rw [if_neg (by decide : ¬((!true) = true))]
      cases inb with
      | unparsable rawMsg =>
        dsimp only
        by_cases hr : truthyS ci0.room = true
        · rw [if_pos hr]
          exact hinv1
        · rw [if_neg hr]
          exact hinv1
      | nonObject =>
        dsimp only
        exact hinv1
      | object fields =>
        dsimp only
        split
        · exact hinv1
        cases hty : alookup fields "type" with
        | none =>
          simp only [hty]
          exact hinv1
        | some ty =>
          simp only [hty]
          by_cases hjoin : ty = "join-room"
          · rw [if_pos hjoin]
            cases hvalid : isValidRoomName (alookup fields "room") with
            | false =>
              rw [if_pos (by decide : (!false) = true)]
              exact hinv1
            | true =>
              rw [if_neg (by decide : ¬((!true) = true))]
              obtain ⟨s, hsome, hs⟩ := isValidRoomName_spec hvalid
              simp only [hsome, Option.getD_some]
              split
              next roomSet hrs =>
                by_cases hcap : cfg.maxRoomClients ≤ roomSet.length
                · rw [if_pos hcap]
                  exact hinv1
                · rw [if_neg hcap]
                  exact inv_handleJoinRoom hinv1 id hs
              next hrs => exact inv_handleJoinRoom hinv1 id hs
          · rw [if_neg hjoin]
            by_cases hleave : ty = "leave-room"
            · rw [if_pos hleave]
              exact inv_handleLeaveRoom hinv1 id
            · rw [if_neg hleave]
              split
              · split
                · split
                  · exact hinv1
                  · exact hinv1
                · exact hinv1
              · split
                · exact hinv1
                · exact hinv1

theorem inv_step {cfg : Config} {st st' : ServerState} (hinv : Inv st)
    (h : Step cfg st st') : Inv st' := by
  cases h with
  | connect origin token newId now hfresh =>
    exact inv_handleConnection cfg hinv hfresh origin token now
  | message id inb now => exact inv_handleMessage cfg hinv id inb now
  | closeStream id => exact inv_handleClose (inv_markClosed hinv id) id
  | dropStream id => exact inv_markClosed hinv id
  | pong id => exact inv_markAlive hinv id
  | heartbeat => exact inv_heartbeatTick hinv

theorem inv_reachable {cfg : Config} {st : ServerState} (h : Reachable cfg st) :
    Inv st := by
  induction h with
  | init => exact inv_init
  | step hre hstep ih => exact inv_step ih hstep

/-! ### Characterization of broadcasts and of the message dispatch -/

theorem broadcastToRoom_no_room {st : ServerState} {msg : OutFrame}
    {roomName exceptId : String} (hm : alookup st.rooms roomName = none) :
    broadcastToRoom st msg roomName exceptId = [] := by
  unfold broadcastToRoom
  rw [hm]

theorem mem_broadcastToRoom {st : ServerState} {msg : OutFrame}
    {roomName exceptId : String} {mem : List String}
    (hm : alookup st.rooms roomName = some mem) (e : Evt) :
    e ∈ broadcastToRoom st msg roomName exceptId ↔
      ∃ m ci, m ∈ mem ∧ m ≠ exceptId ∧ alookup st.clients m = some ci ∧
        ci.wsOpen = true ∧ e = Evt.send m msg := by
  unfold broadcastToRoom
  rw [hm]
  rw [List.mem_filterMap]
  constructor
  · rintro ⟨m, hmm, hsome⟩
    by_cases hme : m = exceptId
    · rw [if_pos hme] at hsome
      cases hsome
    · rw [if_neg hme] at hsome
      cases hcl : alookup st.clients m with
      | none =>
        simp only [hcl] at hsome
        cases hsome
      | some ci =>
        simp only [hcl] at hsome
        by_cases hop : ci.wsOpen = true
        · rw [if_pos hop] at hsome
          cases hsome
          exact ⟨m, ci, hmm, hme, hcl, hop, rfl⟩
        · rw [if_neg hop] at hsome
          cases hsome
  · rintro ⟨m, ci, hmm, hme, hcl, hop, rfl⟩
    refine ⟨m, hmm, ?_⟩
    simp only [if_neg hme, hcl, if_pos hop]

/-- Reduction of the message handler to the relay/fan-out dispatch, for a
frame whose `type` is neither `join-room` nor `leave-room`. -/
theorem handleMessage_dispatch {cfg : Config} {st : ServerState} {id : String}
    {ci0 : Client} {fields : List (String × String)} {ty : String} (now : ℚ)
    (hc : alookup st.clients id = some ci0)
    (har : (rateAllow cfg now ci0.rate).1 = true)
    (hkey : hasForbiddenKey fields = false)
    (hty : alookup fields "type" = some ty)
    (htyj : ty ≠ "join-room") (htyl : ty ≠ "leave-room") :
    handleMessage cfg st id (Inbound.object fields) now =
      (let ci : Client := { ci0 with rate := (rateAllow cfg now ci0.rate).2 };
       let st1 : ServerState := ⟨aset st.clients id ci, st.rooms⟩;
       let toField := alookup fields "to";
       if truthyS toField then
         match alookup st1.clients (toField.getD "") with
         | some ti =>
           if ti.wsOpen && truthyS ci.room && (ti.room == ci.room) then
             (st1, [Evt.send (toField.getD "") (OutFrame.relay (aset fields "from" id))])
           else
             (st1, sendToClient ci id
               (OutFrame.errorFrame "target-unavailable-or-different-room"
                 (some (toField.getD ""))))
         | none =>
           (st1, sendToClient ci id
             (OutFrame.errorFrame "target-unavailable-or-different-room"
               (some (toField.getD ""))))
       else
         if truthyS ci.room then
           (st1, broadcastToRoom st1 (OutFrame.relay (aset fields "from" id))
             (ci.room.getD "") id)
         else (st1, [])) := by
  unfold handleMessage
  simp only [hc, har, Bool.not_true, Bool.false_eq_true, if_false, hkey, hty,
    if_neg htyj, if_neg htyl]

/-- Reduction of the message handler for a `join-room` frame that hits the
per-room capacity guard. -/
theorem handleMessage_join_full {cfg : Config} {st : ServerState} {id : String}
    {ci0 : Client} {fields : List (String × String)} {s : String}
    {mem : List String} (now : ℚ)
    (hc : alookup st.clients id = some ci0)
    (har : (rateAllow cfg now ci0.rate).1 = true)
    (hkey : hasForbiddenKey fields = false)
    (hty : alookup fields "type" = some "join-room")
    (hroomf : alookup fields "room" = some s)
    (hvalid : isValidRoomName (some s) = true)
    (hm : alookup st.rooms s = some mem)
    (hcap : cfg.maxRoomClients ≤ mem.length) :
    handleMessage cfg st id (Inbound.object fields) now =
      (⟨aset st.clients id { ci0 with rate := (rateAllow cfg now ci0.rate).2 }, st.rooms⟩,
       sendToClient { ci0 with rate := (rateAllow cfg now ci0.rate).2 } id
         (OutFrame.errorFrame "room-full" none)) := by
  unfold handleMessage
  simp only [hc, har, Bool.not_true, Bool.false_eq_true, if_false, if_true, hkey, hty,
    hroomf, hvalid, Option.getD_some, hm, if_pos hcap]

/-- Reduction of the message handler for a `join-room` frame that passes the
capacity guard: it runs `handleJoinRoom` on the rate-updated state. -/
theorem handleMessage_join_ok {cfg : Config} {st : ServerState} {id : String}
    {ci0 : Client} {fields : List (String × String)} {s : String} (now : ℚ)
    (hc : alookup st.clients id = some ci0)
    (har : (rateAllow cfg now ci0.rate).1 = true)
    (hkey : hasForbiddenKey fields = false)
    (hty : alookup fields "type" = some "join-room")
    (hroomf : alookup fields "room" = some s)
    (hvalid : isValidRoomName (some s) = true)
    (hnotfull : ∀ mem, alookup st.rooms s = some mem → mem.length < cfg.maxRoomClients) :
    handleMessage cfg st id (Inbound.object fields) now =
      handleJoinRoom
        ⟨aset st.clients id { ci0 with rate := (rateAllow cfg now ci0.rate).2 }, st.rooms⟩
        id s := by
  unfold handleMessage
  cases hm : alookup st.rooms s with
  | none =>
    simp only [hc, har, Bool.not_true, Bool.false_eq_true, if_false, if_true, hkey, hty,
      hroomf, hvalid, Option.getD_some, hm]
  | some mem =>
    have hlt : ¬cfg.maxRoomClients ≤ mem.length := not_le.mpr (hnotfull mem hm)
    simp only [hc, har, Bool.not_true, Bool.false_eq_true, if_false, if_true, hkey, hty,
      hroomf, hvalid, Option.getD_some, hm, if_neg hlt]

/-! ### Concrete instances used by the witnesses and counterexamples -/

theorem reachable_stW1 : Reachable cfg0 stW1 :=
  Reachable.step Reachable.init (Step.connect ⟨[], []⟩ "" "" "a" 0 rfl)

theorem reachable_stW2 : Reachable cfg0 stW2 :=
  Reachable.step reachable_stW1 (Step.message stW1 "a" (Inbound.object joinFrameW) 0)

theorem stW1_eq : stW1 = ⟨[("a", ⟨none, true, true, ⟨20, 0⟩⟩)], []⟩ := by decide

theorem rateAllowW : rateAllow cfg0 0 ⟨20, 0⟩ = (true, ⟨19, 0⟩) := by
  norm_num [rateAllow, cfg0]

theorem stW2_eq : stW2 = ⟨[("a", ⟨some "r", true, true, ⟨19, 0⟩⟩)], [("r", ["a"])]⟩ := by
  rw [stW2, stW1_eq]
  rw [@handleMessage_join_ok cfg0 ⟨[("a", ⟨none, true, true, ⟨20, 0⟩⟩)], []⟩ "a"
    ⟨none, true, true, ⟨20, 0⟩⟩ joinFrameW "r" 0 (by decide)
    (by show (rateAllow cfg0 0 (⟨20, 0⟩ : RateState)).1 = true; rw [rateAllowW])
    (by decide) (by decide) (by decide) (by decide) (fun mem hm => by cases hm)]
  simp only [rateAllowW]
  decide

/-! ### The claims -/

/-- C2: in every reachable state (hence after every join-room, leave-room,
connection close and heartbeat eviction), a client record has `room = R`
exactly when room `R` exists in the room index and the client's id is a
member of `rooms[R]`; and no client id is a member of two different rooms'
sets at the same time. -/
theorem c2_room_field_matches_index (cfg : Config) (st : ServerState)
    (h : Reachable cfg st) :
    (∀ id c, alookup st.clients id = some c →
       ∀ R, c.room = some R ↔ ∃ mem, alookup st.rooms R = some mem ∧ id ∈ mem) ∧
    (∀ R R' mem mem' id, alookup st.rooms R = some mem →
       alookup st.rooms R' = some mem' → id ∈ mem → id ∈ mem' → R = R') := by
  have hinv := inv_reachable h
  refine ⟨fun id c hc R => hinv.roomIff id c hc R, ?_⟩
  intro R R' mem mem' id h1 h2 m1 m2
  exact hinv.unique_room ⟨mem, h1, m1⟩ ⟨mem', h2, m2⟩

theorem c2_room_field_matches_index_witness :
    ∃ mem, alookup stW2.rooms "r" = some mem ∧ "a" ∈ mem :=
  ((c2_room_field_matches_index cfg0 stW2 reachable_stW2).1 "a"
      ⟨some "r", true, true, ⟨19, 0⟩⟩ (by rw [stW2_eq]; decide) "r").mp rfl

/-- C10: in every reachable quiescent state the `GET /status` snapshot is
internally consistent: `totalClients` equals the length of its `clients`
array, and every client id appearing in any room list of its `rooms` object
also appears in its `clients` array. -/
theorem c10_status_snapshot_consistent (cfg : Config) (st : ServerState)
    (h : Reachable cfg st) :
    (getStatus st).totalClients = (getStatus st).clientList.length ∧
    ∀ R mem, (R, mem) ∈ (getStatus st).roomsInfo →
      ∀ id, id ∈ mem → id ∈ (getStatus st).clientList := by
  have hinv := inv_reachable h
  constructor
  · simp [getStatus, keys]
  · intro R mem hmem id hid
    have hlook : alookup st.rooms R = some mem := alookup_of_mem_nodup hinv.ndr hmem
    obtain ⟨c, hc⟩ := hinv.memClient R mem hlook id hid
    exact mem_keys_of_alookup hc

theorem c10_status_snapshot_consistent_witness :
    (getStatus stW2).totalClients = (getStatus stW2).clientList.length ∧
    "a" ∈ (getStatus stW2).clientList :=
  ⟨(c10_status_snapshot_consistent cfg0 stW2 reachable_stW2).1,
   (c10_status_snapshot_consistent cfg0 stW2 reachable_stW2).2 "r" ["a"]
     (by rw [stW2_eq]; decide) "a" (by decide)⟩

/-- C7 counterexample: `rateAllow` reads the wall clock (`Date.now()`), not a
monotonic source.  With bucket state `{tokens := 0, last := 0}` and zero real
elapsed time, a forward wall-clock jump to reading `600000` ms refills the
bucket fully and grants a token, while without the jump (reading `0`) the
frame is refused: a forward clock jump grants the client tokens that the real
elapsed time (zero) would not. -/
theorem c7_counterexample :
    (rateAllow cfg0 600000 { tokens := 0, last := 0 }).1 = true ∧
    (rateAllow cfg0 600000 { tokens := 0, last := 0 }).2.tokens = 19 ∧
    (rateAllow cfg0 0 { tokens := 0, last := 0 }).1 = false := by
  norm_num [rateAllow, cfg0]

/-- C7 amended: the refill step computes
`tokens ← min(burst, tokens + max(0, elapsed)·rate)` where `elapsed` is read
from the wall clock (`Date.now()`), not a monotonic source.  Consequently the
bucket never exceeds the burst size, and a backward clock jump grants no
tokens (elapsed is clamped to zero); a frame is admitted exactly when the
refilled bucket holds at least one token.  (A forward wall-clock jump does
grant tokens, see the counterexample.) -/
theorem rateAllow_eq (cfg : Config) (now : ℚ) (r : RateState) :
    rateAllow cfg now r =
      (if 1 ≤ min cfg.messageBurst
            (r.tokens + max 0 ((now - r.last) / 1000) * cfg.messageRatePerSec)
        then (true,
          { tokens := min cfg.messageBurst
              (r.tokens + max 0 ((now - r.last) / 1000) * cfg.messageRatePerSec) - 1,
            last := now })
        else (false,
          { tokens := min cfg.messageBurst
              (r.tokens + max 0 ((now - r.last) / 1000) * cfg.messageRatePerSec),
            last := now })) := rfl

/-- C7 amended: the refill step computes
`tokens ← min(burst, tokens + max(0, elapsed)·rate)` where `elapsed` is read
from the wall clock (`Date.now()`), not a monotonic source.  Consequently the
bucket never exceeds the burst size, and a backward clock jump grants no
tokens (elapsed is clamped to zero); a frame is admitted exactly when the
refilled bucket holds at least one token.  (A forward wall-clock jump does
grant tokens, see the counterexample.) -/
theorem c7_rate_refill_amended (cfg : Config) (now : ℚ) (r : RateState)
    (htok : r.tokens ≤ cfg.messageBurst) :
    ((rateAllow cfg now r).2.tokens ≤ cfg.messageBurst) ∧
    (now ≤ r.last →
      (rateAllow cfg now r).2.tokens
        = (if 1 ≤ r.tokens then r.tokens - 1 else r.tokens)) ∧
    ((rateAllow cfg now r).1 = true ↔
      1 ≤ min cfg.messageBurst
        (r.tokens + max 0 ((now - r.last) / 1000) * cfg.messageRatePerSec)) := by
  have hT : min cfg.messageBurst
      (r.tokens + max 0 ((now - r.last) / 1000) * cfg.messageRatePerSec)
      ≤ cfg.messageBurst := min_le_left _ _
  rw [rateAllow_eq]
  refine ⟨?_, ?_, ?_⟩
  · by_cases h1 : 1 ≤ min cfg.messageBurst
        (r.tokens + max 0 ((now - r.last) / 1000) * cfg.messageRatePerSec)
    · rw [if_pos h1]
      show min cfg.messageBurst
          (r.tokens + max 0 ((now - r.last) / 1000) * cfg.messageRatePerSec) - 1
          ≤ cfg.messageBurst
      linarith
    · rw [if_neg h1]
      exact hT
  · intro hback
    have hz : (now - r.last) / 1000 ≤ 0 :=
      div_nonpos_of_nonpos_of_nonneg (by linarith) (by norm_num)
    have he : max 0 ((now - r.last) / 1000) = 0 := max_eq_left hz
    rw [he, zero_mul, add_zero, min_eq_right htok]
    by_cases h1 : 1 ≤ r.tokens
    · rw [if_pos h1, if_pos h1]
    · rw [if_neg h1, if_neg h1]
  · by_cases h1 : 1 ≤ min cfg.messageBurst
        (r.tokens + max 0 ((now - r.last) / 1000) * cfg.messageRatePerSec)
    · rw [if_pos h1]
      simpa using h1
    · rw [if_neg h1]
      simpa using h1

theorem c7_rate_refill_amended_witness :
    (rateAllow cfg0 5000 { tokens := 3, last := 0 }).2.tokens ≤ cfg0.messageBurst :=
  (c7_rate_refill_amended cfg0 5000 { tokens := 3, last := 0 } (by norm_num [cfg0])).1

theorem mem_sendToClient {ci : Client} {i : String} {f : OutFrame} {e : Evt}
    (h : e ∈ sendToClient ci i f) : e = Evt.send i f := by
  unfold sendToClient at h
  by_cases hop : ci.wsOpen = true
  · rw [if_pos hop] at h
    exact List.mem_singleton.mp h
  · rw [if_neg hop] at h
    cases h

theorem mem_broadcastToRoom_shape {st : ServerState} {msg : OutFrame}
    {roomName exceptId : String} {e : Evt}
    (h : e ∈ broadcastToRoom st msg roomName exceptId) : ∃ m, e = Evt.send m msg := by
  unfold broadcastToRoom at h
  cases hm : alookup st.rooms roomName with
  | none =>
    rw [hm] at h
    cases h
  | some mem =>
    rw [hm, List.mem_filterMap] at h
    obtain ⟨m, hmm, hsome⟩ := h
    by_cases hme : m = exceptId
    · rw [if_pos hme] at hsome
      cases hsome
    · rw [if_neg hme] at hsome
      cases hcl : alookup st.clients m with
      | none =>
        simp only [hcl] at hsome
        cases hsome
      | some ci =>
        simp only [hcl] at hsome
        by_cases hop : ci.wsOpen = true
        · rw [if_pos hop] at hsome
          exact ⟨m, (Option.some.inj hsome).symm⟩
        · rw [if_neg hop] at hsome
          cases hsome

theorem handleLeaveRoom_events_shape {st : ServerState} {clientId : String} {e : Evt}
    (he : e ∈ (handleLeaveRoom st clientId).2) :
    (∃ m, e = Evt.send m (OutFrame.peerLeft clientId)) ∨
    (∃ R, e = Evt.send clientId (OutFrame.roomLeft R)) := by
  cases hc : alookup st.clients clientId with
  | none =>
    rw [handleLeaveRoom_no_client hc] at he
    cases he
  | some ci =>
    cases ht : truthyS ci.room with
    | false =>
      rw [handleLeaveRoom_no_room hc ht] at he
      cases he
    | true =>
      obtain ⟨R, hro, hR⟩ := truthyS_eq_true ht
      cases hm : alookup st.rooms R with
      | none =>
        rw [handleLeaveRoom_noset hc hro hR hm] at he
        by_cases hop : ci.wsOpen = true
        · rw [if_pos hop] at he
          rw [show ((⟨aset st.clients clientId { ci with room := none }, st.rooms⟩,
              [Evt.send clientId (OutFrame.roomLeft R)]) :
              ServerState × List Evt).2 = [Evt.send clientId (OutFrame.roomLeft R)]
            from rfl, List.mem_singleton] at he
          exact Or.inr ⟨R, he⟩
        · rw [if_neg hop] at he
          cases he
      | some mem =>
        rw [handleLeaveRoom_found hc hro hR hm] at he
        rw [show ((⟨aset st.clients clientId { ci with room := none },
            if (mem.erase clientId).length = 0
              then aerase (aset st.rooms R (mem.erase clientId)) R
              else aset st.rooms R (mem.erase clientId)⟩,
            broadcastToRoom ⟨st.clients, aset st.rooms R (mem.erase clientId)⟩
                (OutFrame.peerLeft clientId) R clientId
              ++ (if ci.wsOpen then [Evt.send clientId (OutFrame.roomLeft R)] else [])) :
            ServerState × List Evt).2
            = broadcastToRoom ⟨st.clients, aset st.rooms R (mem.erase clientId)⟩
                (OutFrame.peerLeft clientId) R clientId
              ++ (if ci.wsOpen then [Evt.send clientId (OutFrame.roomLeft R)] else [])
          from rfl, List.mem_append] at he
        rcases he with he | he
        · obtain ⟨m, rfl⟩ := mem_broadcastToRoom_shape he
          exact Or.inl ⟨m, rfl⟩
        · by_cases hop : ci.wsOpen = true
          · rw [if_pos hop] at he
            rw [List.mem_singleton] at he
            exact Or.inr ⟨R, he⟩
          · rw [if_neg hop] at he
            cases he

theorem no_id_handleLeaveRoom {st : ServerState} {clientId : String} {e : Evt}
    (he : e ∈ (handleLeaveRoom st clientId).2) : isIdFrame e = false := by
  rcases handleLeaveRoom_events_shape he with ⟨m, rfl⟩ | ⟨R, rfl⟩ <;> rfl

theorem joinCore_events_shape {st1 : ServerState} {clientId : String} {ci1 : Client}
    {roomName : String} {e : Evt}
    (he : e ∈ (joinCore st1 clientId ci1 roomName).2) :
    (∃ R, e = Evt.send clientId (OutFrame.roomJoined R)) ∨
    (∃ m, e = Evt.send m (OutFrame.peerJoined clientId)) ∨
    (∃ ps, e = Evt.send clientId (OutFrame.roomPeers ps)) := by
  simp only [joinCore] at he
  rw [List.mem_append, List.mem_append] at he
  rcases he with (he | he) | he
  · exact Or.inl ⟨roomName, mem_sendToClient he⟩
  · obtain ⟨m, rfl⟩ := mem_broadcastToRoom_shape he
    exact Or.inr (Or.inl ⟨m, rfl⟩)
  · exact Or.inr (Or.inr ⟨_, mem_sendToClient he⟩)

theorem no_id_handleJoinRoom {st : ServerState} {clientId roomName : String} {e : Evt}
    (he : e ∈ (handleJoinRoom st clientId roomName).2) : isIdFrame e = false := by
  cases hc : alookup st.clients clientId with
  | none =>
    rw [handleJoinRoom_no_client hc] at he
    cases he
  | some ci0 =>
    cases ht : truthyS ci0.room with
    | false =>
      rw [handleJoinRoom_eq_no_prev hc ht] at he
      rcases joinCore_events_shape he with ⟨R, rfl⟩ | ⟨m, rfl⟩ | ⟨ps, rfl⟩ <;> rfl
    | true =>
      rw [handleJoinRoom_eq_prev hc ht] at he
      rw [show ((( joinCore (handleLeaveRoom st clientId).1 clientId
            { ci0 with room := none } roomName).1,
          (handleLeaveRoom st clientId).2
            ++ (joinCore (handleLeaveRoom st clientId).1 clientId
                { ci0 with room := none } roomName).2) :
          ServerState × List Evt).2
          = (handleLeaveRoom st clientId).2
            ++ (joinCore (handleLeaveRoom st clientId).1 clientId
                { ci0 with room := none } roomName).2 from rfl,
        List.mem_append] at he
      rcases he with he | he
      · exact no_id_handleLeaveRoom he
      · rcases joinCore_events_shape he with ⟨R, rfl⟩ | ⟨m, rfl⟩ | ⟨ps, rfl⟩ <;> rfl

theorem no_id_handleMessage (cfg : Config) {st : ServerState} {id : String}
    {inb : Inbound} {now : ℚ} {e : Evt}
    (he : e ∈ (handleMessage cfg st id inb now).2) : isIdFrame e = false := by
  unfold handleMessage at he
  cases hc : alookup st.clients id with
  | none =>
    simp only [hc] at he
    cases he
  | some ci0 =>
    simp only [hc] at he
    cases har : (rateAllow cfg now ci0.rate).1 with
    | false =>
      rw [har, if_pos (by decide : (!false) = true)] at he
      rw [mem_sendToClient he]
      rfl
    | true =>
      rw [har, if_neg (by decide : ¬((!true) = true))] at he
      cases inb with
      | unparsable rawMsg =>
        dsimp only at he
        by_cases hr : truthyS ci0.room = true
        · rw [if_pos hr] at he
          obtain ⟨m, rfl⟩ := mem_broadcastToRoom_shape he
          rfl
        · rw [if_neg hr] at he
          cases he
      | nonObject =>
        dsimp only at he
        rw [mem_sendToClient he]
        rfl
      | object fields =>
        dsimp only at he
        by_cases hkey : hasForbiddenKey fields = true
        · rw [if_pos hkey] at he
          rw [mem_sendToClient he]
          rfl
        · rw [if_neg hkey] at he
          cases hty : alookup fields "type" with
          | none =>
            simp only [hty] at he
            rw [mem_sendToClient he]
            rfl
          | some ty =>
            simp only [hty] at he
            by_cases hjoin : ty = "join-room"
            · rw [if_pos hjoin] at he
              by_cases hvalid : isValidRoomName (alookup fields "room") = true
              · rw [if_neg (by simp [hvalid] : ¬((!isValidRoomName
                    (alookup fields "room")) = true))] at he
                cases hrs : alookup st.rooms ((alookup fields "room").getD "") with
                | some roomSet =>
                  simp only [hrs] at he
                  by_cases hcap : cfg.maxRoomClients ≤ roomSet.length
                  · rw [if_pos hcap] at he
                    rw [mem_sendToClient he]
                    rfl
                  · rw [if_neg hcap] at he
                    exact no_id_handleJoinRoom he
                | none =>
                  simp only [hrs] at he
                  exact no_id_handleJoinRoom he
              · rw [if_pos (by simp [Bool.not_eq_true] at hvalid; simp [hvalid] :
                    (!isValidRoomName (alookup fields "room")) = true)] at he
                rw [mem_sendToClient he]
                rfl
            · rw [if_neg hjoin] at he
              by_cases hleave : ty = "leave-room"
              · rw [if_pos hleave] at he
                exact no_id_handleLeaveRoom he
              · rw [if_neg hleave] at he
                by_cases hto : truthyS (alookup fields "to") = true
                · rw [if_pos hto] at he
                  cases hlt : alookup
                      (aset st.clients id
                        { ci0 with rate := (rateAllow cfg now ci0.rate).2 })
                      ((alookup fields "to").getD "") with
                  | some ti =>
                    simp only [hlt] at he
                    by_cases hcond : (ti.wsOpen
                        && truthyS ({ ci0 with
                            rate := (rateAllow cfg now ci0.rate).2 } : Client).room
                        && (ti.room == ({ ci0 with
                            rate := (rateAllow cfg now ci0.rate).2 } : Client).room))
                        = true
                    · rw [if_pos hcond] at he
                      rw [List.mem_singleton.mp he]
                      rfl
                    · rw [if_neg hcond] at he
                      rw [mem_sendToClient he]
                      rfl
                  | none =>
                    simp only [hlt] at he
                    rw [mem_sendToClient he]
                    rfl
                · rw [if_neg hto] at he
                  by_cases hr : truthyS ({ ci0 with
                      rate := (rateAllow cfg now ci0.rate).2 } : Client).room = true
                  · rw [if_pos hr] at he
                    obtain ⟨m, rfl⟩ := mem_broadcastToRoom_shape he
                    rfl
                  · rw [if_neg hr] at he
                    cases he

theorem no_id_heartbeatVisit {st : ServerState} {id : String} {e : Evt}
    (he : e ∈ (heartbeatVisit st id).2) : isIdFrame e = false := by
  unfold heartbeatVisit at he
  cases hc : alookup st.clients id with
  | none =>
    simp only [hc] at he
    cases he
  | some info =>
    simp only [hc] at he
    by_cases hd : (!info.isAlive || !info.wsOpen) = true
    · rw [if_pos hd] at he
      by_cases ht : truthyS info.room = true
      · rw [if_pos ht] at he
        cases hm : alookup st.rooms (info.room.getD "") with
        | none =>
          simp only [hm] at he
          rw [List.mem_singleton.mp he]
          rfl
        | some mem =>
          simp only [hm] at he
          rw [List.mem_cons] at he
          rcases he with rfl | he
          · rfl
          · obtain ⟨m, rfl⟩ := mem_broadcastToRoom_shape he
            rfl
      · rw [if_neg ht] at he
        rw [List.mem_singleton.mp he]
        rfl
    · rw [if_neg hd] at he
      rw [List.mem_singleton.mp he]
      rfl

theorem no_id_heartbeatFold : ∀ (ids : List String) (acc : ServerState × List Evt),
    (∀ e ∈ acc.2, isIdFrame e = false) →
    ∀ e ∈ (heartbeatFold acc ids).2, isIdFrame e = false := by
  intro ids
  induction ids with
  | nil =>
    intro acc h e he
    exact h e he
  | cons x t ih =>
    intro acc h e he
    have hcons : heartbeatFold acc (x :: t)
        = heartbeatFold ((heartbeatVisit acc.1 x).1, acc.2 ++ (heartbeatVisit acc.1 x).2) t :=
      rfl
    rw [hcons] at he
    refine ih _ ?_ e he
    intro e' he'
    rw [show ((heartbeatVisit acc.1 x).1,
        acc.2 ++ (heartbeatVisit acc.1 x).2).2
        = acc.2 ++ (heartbeatVisit acc.1 x).2 from rfl, List.mem_append] at he'
    rcases he' with he' | he'
    · exact h e' he'
    · exact no_id_heartbeatVisit he'

theorem no_id_heartbeatTick {st : ServerState} {e : Evt}
    (he : e ∈ (heartbeatTick st).2) : isIdFrame e = false :=
  no_id_heartbeatFold _ _ (fun e' he' => absurd he' (List.not_mem_nil e')) e he

theorem no_id_handleClose {st : ServerState} {id : String} {e : Evt}
    (he : e ∈ (handleClose st id).2) : isIdFrame e = false := by
  unfold handleClose at he
  cases hc : alookup st.clients id with
  | none =>
    simp only [hc] at he
    cases he
  | some ci =>
    simp only [hc] at he
    by_cases ht : truthyS ci.room = true
    · rw [if_pos ht] at he
      exact no_id_handleLeaveRoom he
    · rw [if_neg ht] at he
      cases he

/-- C4: every connection rejected at admission is closed with the
corresponding close code — 1013 when the global capacity is reached, 1008
when a configured origin allow-list does not contain the origin, 4003
(application range) when a shared secret is configured and the token does
not match — and, the trace being exactly that close event, it is never sent
an `id` frame; every accepted connection's admission trace is exactly one
`id` frame, and no other server operation (message handling, heartbeat tick,
connection close) ever emits an `id` frame, so the accepted connection's
single `id` frame precedes any other server-originated frame of the
connection. -/
theorem c4_admission_control (cfg : Config) (st : ServerState)
    (origin token newId : String) (now : ℚ) :
    (cfg.maxClients ≤ st.clients.length →
      (handleConnection cfg st origin token newId now).2
        = [Evt.closeConn 1013 "server-overloaded"]) ∧
    (st.clients.length < cfg.maxClients →
      cfg.allowedOrigins ≠ [] → origin ∉ cfg.allowedOrigins →
      (handleConnection cfg st origin token newId now).2
        = [Evt.closeConn 1008 "origin-not-allowed"]) ∧
    (st.clients.length < cfg.maxClients →
      (cfg.allowedOrigins = [] ∨ origin ∈ cfg.allowedOrigins) →
      cfg.wsSecret ≠ "" → token ≠ cfg.wsSecret →
      (handleConnection cfg st origin token newId now).2
        = [Evt.closeConn 4003 "auth-failed"]) ∧
    (st.clients.length < cfg.maxClients →
      (cfg.allowedOrigins = [] ∨ origin ∈ cfg.allowedOrigins) →
      (cfg.wsSecret = "" ∨ token = cfg.wsSecret) →
      (handleConnection cfg st origin token newId now).2
        = [Evt.send newId (OutFrame.idFrame newId)]) ∧
    (∀ i inb n e, e ∈ (handleMessage cfg st i inb n).2 → isIdFrame e = false) ∧
    (∀ e, e ∈ (heartbeatTick st).2 → isIdFrame e = false) ∧
    (∀ i e, e ∈ (handleClose st i).2 → isIdFrame e = false) := by
  have origin_pass : ∀ (h : cfg.allowedOrigins = [] ∨ origin ∈ cfg.allowedOrigins),
      ¬((!cfg.allowedOrigins.isEmpty && !cfg.allowedOrigins.contains origin) = true) := by
    rintro (h | h) <;> simp [h]
  have token_pass : ∀ (h : cfg.wsSecret = "" ∨ token = cfg.wsSecret),
      ¬((cfg.wsSecret != "" && token != cfg.wsSecret) = true) := by
    rintro (h | h) <;> simp [h]
  refine ⟨?_, ?_, ?_, ?_, ?_, ?_, ?_⟩
  · intro hcap
    unfold handleConnection
    rw [if_pos hcap]
  · intro hcap hne hnotin
    unfold handleConnection
    rw [if_neg (not_le.mpr hcap), if_pos (by simp [hne, hnotin])]
  · intro hcap hor hsec htok
    unfold handleConnection
    rw [if_neg (not_le.mpr hcap), if_neg (origin_pass hor),
      if_pos (by simp [hsec, htok])]
  · intro hcap hor htok
    unfold handleConnection
    rw [if_neg (not_le.mpr hcap), if_neg (origin_pass hor), if_neg (token_pass htok)]
  · intro i inb n e he
    exact no_id_handleMessage cfg he
  · intro e he
    exact no_id_heartbeatTick he
  · intro i e he
    exact no_id_handleClose he

theorem c4_admission_control_witness :
    ((handleConnection cfg0 ⟨[], []⟩ "" "" "w" 0).2
        = [Evt.send "w" (OutFrame.idFrame "w")]) ∧
    ((handleConnection { cfg0 with maxClients := 0 } ⟨[], []⟩ "" "" "w" 0).2
        = [Evt.closeConn 1013 "server-overloaded"]) ∧
    ((handleConnection { cfg0 with allowedOrigins := ["http://ok"] } ⟨[], []⟩
          "http://evil" "" "w" 0).2
        = [Evt.closeConn 1008 "origin-not-allowed"]) ∧
    ((handleConnection { cfg0 with wsSecret := "s" } ⟨[], []⟩ "" "bad" "w" 0).2
        = [Evt.closeConn 4003 "auth-failed"]) :=
  ⟨(c4_admission_control cfg0 ⟨[], []⟩ "" "" "w" 0).2.2.2.1 (by decide)
      (Or.inl rfl) (Or.inl rfl),
   (c4_admission_control { cfg0 with maxClients := 0 } ⟨[], []⟩ "" "" "w" 0).1
      (by decide),
   (c4_admission_control { cfg0 with allowedOrigins := ["http://ok"] } ⟨[], []⟩
      "http://evil" "" "w" 0).2.1 (by decide) (by decide) (by decide),
   (c4_admission_control { cfg0 with wsSecret := "s" } ⟨[], []⟩ "" "bad" "w" 0).2.2.1
      (by decide) (Or.inl rfl) (by decide) (by decide)⟩

/-- C1: for an inbound frame from client `id` whose `to` field is a non-empty
string `t` (and which is not a join/leave frame), the frame is delivered to
`t` if and only if `t` is a registered client whose stream is open and the
sender and target are in the same non-unset room; on delivery the server
sends the target exactly the frame with `from` set to the sender's id and
every other field preserved, and otherwise it sends the sender an error frame
`target-unavailable-or-different-room` echoing the `to` value. -/
theorem c1_targeted_relay (cfg : Config) (st : ServerState) (id : String)
    (fields : List (String × String)) (now : ℚ) (ci : Client) (t ty : String)
    (hc : alookup st.clients id = some ci)
    (hopen : ci.wsOpen = true)
    (har : (rateAllow cfg now ci.rate).1 = true)
    (hkey : hasForbiddenKey fields = false)
    (hty : alookup fields "type" = some ty)
    (htyj : ty ≠ "join-room") (htyl : ty ≠ "leave-room")
    (hto : alookup fields "to" = some t) (htne : t ≠ "")
    (hcir : ci.room ≠ some "") :
    ((∃ ti r, alookup st.clients t = some ti ∧ ti.wsOpen = true ∧
        ci.room = some r ∧ ti.room = some r) →
      (handleMessage cfg st id (Inbound.object fields) now).2
          = [Evt.send t (OutFrame.relay (aset fields "from" id))] ∧
      alookup (aset fields "from" id) "from" = some id ∧
      (∀ k, k ≠ "from" → alookup (aset fields "from" id) k = alookup fields k)) ∧
    ((¬∃ ti r, alookup st.clients t = some ti ∧ ti.wsOpen = true ∧
        ci.room = some r ∧ ti.room = some r) →
      (handleMessage cfg st id (Inbound.object fields) now).2
          = [Evt.send id (OutFrame.errorFrame
              "target-unavailable-or-different-room" (some t))]) := by
  have key : ((∃ ti r, alookup st.clients t = some ti ∧ ti.wsOpen = true ∧
        ci.room = some r ∧ ti.room = some r) ∧
      (handleMessage cfg st id (Inbound.object fields) now).2
        = [Evt.send t (OutFrame.relay (aset fields "from" id))]) ∨
      ((¬∃ ti r, alookup st.clients t = some ti ∧ ti.wsOpen = true ∧
        ci.room = some r ∧ ti.room = some r) ∧
      (handleMessage cfg st id (Inbound.object fields) now).2
        = [Evt.send id (OutFrame.errorFrame
            "target-unavailable-or-different-room" (some t))]) := by
    rw [handleMessage_dispatch now hc har hkey hty htyj htyl]
    simp only [hto, Option.getD_some, truthyS_some htne, if_true]
    by_cases hti : t = id
    · subst hti
      simp only [alookup_aset_self]
      cases hro : ci.room with
      | none =>
        refine Or.inr ⟨?_, ?_⟩
        · rintro ⟨ti, r, hti', hop', hrs, hrt⟩
          cases hrs
        · simp [hro, truthyS, sendToClient, hopen]
      | some r =>
        have hrne : r ≠ "" := fun h => hcir (h ▸ hro)
        refine Or.inl ⟨⟨ci, r, hc, hopen, rfl, hro⟩, ?_⟩
        simp [hro, hopen, truthyS, bne_iff_ne, hrne]
    · rw [alookup_aset_ne _ _ _ _ (fun h => hti h)]
      cases hlt : alookup st.clients t with
      | none =>
        refine Or.inr ⟨?_, ?_⟩
        · rintro ⟨ti, r, hti', hop', hrs, hrt⟩
          cases hti'
        · simp [sendToClient, hopen]
      | some ti =>
        by_cases hcond : ti.wsOpen = true ∧ ∃ r, ci.room = some r ∧ ti.room = some r
        · obtain ⟨hop', r, hrs, hrt⟩ := hcond
          have hrne : r ≠ "" := fun h => hcir (h ▸ hrs)
          refine Or.inl ⟨⟨ti, r, rfl, hop', hrs, hrt⟩, ?_⟩
          simp [hop', hrs, hrt, truthyS, bne_iff_ne, hrne]
        · have hbc : (ti.wsOpen && truthyS ci.room && (ti.room == ci.room)) = false := by
            by_cases hop' : ti.wsOpen = true
            · cases hro' : ci.room with
              | none => simp [truthyS]
              | some r =>
                have hrne : r ≠ "" := fun h => hcir (h ▸ hro')
                have hne' : ti.room ≠ some r := fun h => hcond ⟨hop', r, hro', h⟩
                simp [hop', truthyS, bne_iff_ne, hrne, hne']
            · have hof : ti.wsOpen = false := by
                revert hop'
                cases ti.wsOpen <;> simp
              simp [hof]
          refine Or.inr ⟨?_, ?_⟩
          · rintro ⟨ti', r, hti', hop', hrs, hrt⟩
            cases hti'
            exact hcond ⟨hop', r, hrs, hrt⟩
          · simp [hbc, sendToClient, hopen]
  rcases key with ⟨hex, htr⟩ | ⟨hnex, htr⟩
  · exact ⟨fun _ => ⟨htr, alookup_aset_self _ _ _,
      fun k hk => alookup_aset_ne _ _ _ _ hk⟩, fun hne => absurd hex hne⟩
  · exact ⟨fun h => absurd h hnex, fun _ => htr⟩

theorem c1_targeted_relay_witness :
    (handleMessage cfg0
        ⟨[("a", ⟨some "r", true, true, ⟨20, 0⟩⟩), ("b", ⟨some "r", true, true, ⟨20, 0⟩⟩)],
         [("r", ["a", "b"])]⟩ "a"
        (Inbound.object [("type", "offer"), ("to", "b")]) 0).2
      = [Evt.send "b"
          (OutFrame.relay (aset [("type", "offer"), ("to", "b")] "from" "a"))] :=
  ((c1_targeted_relay cfg0
      ⟨[("a", ⟨some "r", true, true, ⟨20, 0⟩⟩), ("b", ⟨some "r", true, true, ⟨20, 0⟩⟩)],
       [("r", ["a", "b"])]⟩ "a" [("type", "offer"), ("to", "b")] 0
      ⟨some "r", true, true, ⟨20, 0⟩⟩ "b" "offer"
      (by decide) rfl (by norm_num [rateAllow, cfg0]) (by decide) (by decide)
      (by decide) (by decide) (by decide) (by decide) (by decide)).1
    ⟨⟨some "r", true, true, ⟨20, 0⟩⟩, "r", by decide, rfl, rfl, rfl⟩).1

/-- C8: a well-formed frame whose `to` field is present but equal to the
empty string is not treated as a targeted relay and produces no
`target-unavailable-or-different-room` error: if the sender is in a room the
frame is fanned out, with `from` set to the sender's id, to exactly the other
members of that room whose streams are open, and if the sender is in no room
the frame is silently dropped (no event is emitted). -/
theorem c8_empty_to_broadcast (cfg : Config) (st : ServerState) (id : String)
    (fields : List (String × String)) (now : ℚ) (ci : Client) (ty : String)
    (hc : alookup st.clients id = some ci)
    (har : (rateAllow cfg now ci.rate).1 = true)
    (hkey : hasForbiddenKey fields = false)
    (hty : alookup fields "type" = some ty)
    (htyj : ty ≠ "join-room") (htyl : ty ≠ "leave-room")
    (hto : alookup fields "to" = some "") :
    (∀ r mem, ci.room = some r → r ≠ "" → alookup st.rooms r = some mem →
      ∀ e, e ∈ (handleMessage cfg st id (Inbound.object fields) now).2 ↔
        ∃ m cm, m ∈ mem ∧ m ≠ id ∧ alookup st.clients m = some cm ∧
          cm.wsOpen = true ∧
          e = Evt.send m (OutFrame.relay (aset fields "from" id))) ∧
    (ci.room = none →
      (handleMessage cfg st id (Inbound.object fields) now).2 = []) := by
  rw [handleMessage_dispatch now hc har hkey hty htyj htyl]
  simp only [hto, show truthyS (some "") = false from rfl, Bool.false_eq_true, if_false]
  constructor
  · intro r mem hro hrne hm e
    simp only [hro, truthyS_some hrne, if_true, Option.getD_some]
    rw [@mem_broadcastToRoom
      ⟨aset st.clients id ⟨some r, ci.wsOpen, ci.isAlive, (rateAllow cfg now ci.rate).2⟩,
       st.rooms⟩
      (OutFrame.relay (aset fields "from" id)) r id mem hm e]
    constructor
    · rintro ⟨m, cm, hmm, hmne, hcl, hop, rfl⟩
      rw [alookup_aset_ne _ _ _ _ hmne] at hcl
      exact ⟨m, cm, hmm, hmne, hcl, hop, rfl⟩
    · rintro ⟨m, cm, hmm, hmne, hcl, hop, rfl⟩
      refine ⟨m, cm, hmm, hmne, ?_, hop, rfl⟩
      rw [alookup_aset_ne _ _ _ _ hmne]
      exact hcl
  · intro hro
    simp only [hro, truthyS_none, Bool.false_eq_true, if_false]

theorem c8_empty_to_broadcast_witness :
    Evt.send "b" (OutFrame.relay (aset [("type", "offer"), ("to", "")] "from" "a"))
      ∈ (handleMessage cfg0
          ⟨[("a", ⟨some "r", true, true, ⟨20, 0⟩⟩), ("b", ⟨some "r", true, true, ⟨20, 0⟩⟩)],
           [("r", ["a", "b"])]⟩ "a"
          (Inbound.object [("type", "offer"), ("to", "")]) 0).2 :=
  (((c8_empty_to_broadcast cfg0
      ⟨[("a", ⟨some "r", true, true, ⟨20, 0⟩⟩), ("b", ⟨some "r", true, true, ⟨20, 0⟩⟩)],
       [("r", ["a", "b"])]⟩ "a" [("type", "offer"), ("to", "")] 0
      ⟨some "r", true, true, ⟨20, 0⟩⟩ "offer"
      (by decide) (by norm_num [rateAllow, cfg0]) (by decide) (by decide)
      (by decide) (by decide) (by decide)).1 "r" ["a", "b"] rfl (by decide)
      (by decide) _).mpr
    ⟨"b", ⟨some "r", true, true, ⟨20, 0⟩⟩, by decide, by decide, by decide, rfl, rfl⟩)

/-- C9: a client in a room that sends a frame whose `to` equals its own id is
relayed its own frame back, with `from` set to its id and no error frame:
the exclude-the-sender rule of room fan-out does not apply to targeted
relays. -/
theorem c9_self_relay (cfg : Config) (st : ServerState) (id : String)
    (fields : List (String × String)) (now : ℚ) (ci : Client) (r ty : String)
    (hc : alookup st.clients id = some ci)
    (hopen : ci.wsOpen = true)
    (hidne : id ≠ "")
    (hro : ci.room = some r) (hrne : r ≠ "")
    (har : (rateAllow cfg now ci.rate).1 = true)
    (hkey : hasForbiddenKey fields = false)
    (hty : alookup fields "type" = some ty)
    (htyj : ty ≠ "join-room") (htyl : ty ≠ "leave-room")
    (hto : alookup fields "to" = some id) :
    (handleMessage cfg st id (Inbound.object fields) now).2
      = [Evt.send id (OutFrame.relay (aset fields "from" id))] := by
  rw [handleMessage_dispatch now hc har hkey hty htyj htyl]
  simp only [hto, Option.getD_some, truthyS_some hidne, if_true, alookup_aset_self]
  simp [hro, hopen, truthyS, bne_iff_ne, hrne]

theorem c9_self_relay_witness :
    (handleMessage cfg0 ⟨[("a", ⟨some "r", true, true, ⟨20, 0⟩⟩)], [("r", ["a"])]⟩ "a"
        (Inbound.object [("type", "offer"), ("to", "a")]) 0).2
      = [Evt.send "a"
          (OutFrame.relay (aset [("type", "offer"), ("to", "a")] "from" "a"))] :=
  c9_self_relay cfg0 ⟨[("a", ⟨some "r", true, true, ⟨20, 0⟩⟩)], [("r", ["a"])]⟩ "a"
    [("type", "offer"), ("to", "a")] 0 ⟨some "r", true, true, ⟨20, 0⟩⟩ "r" "offer"
    (by decide) rfl (by decide) rfl (by decide) (by norm_num [rateAllow, cfg0])
    (by decide) (by decide) (by decide) (by decide) (by decide)

/-! ### C5: the `room-full` guard -/

theorem rateAllowRF : rateAllow cfgRF 0 ⟨20, 0⟩ = (true, ⟨19, 0⟩) := by
  norm_num [rateAllow, cfgRF, cfg0]

/-- C5 counterexample: when client `b` sends `join-room r` and room `r` is at
capacity, the server answers `error{room-full}` and the room index and `b`'s
room are untouched, but the registry is *not* exactly as before the frame:
the rate check has debited one token from `b`'s bucket (20 → 19), so `b`'s
client record differs from its value before the frame. -/
theorem c5_counterexample :
    alookup st5.clients "b" = some ⟨none, true, true, ⟨20, 0⟩⟩ ∧
    alookup (handleMessage cfgRF st5 "b" (Inbound.object joinFrameW) 0).1.clients "b"
      = some ⟨none, true, true, ⟨19, 0⟩⟩ ∧
    (handleMessage cfgRF st5 "b" (Inbound.object joinFrameW) 0).2
      = [Evt.send "b" (OutFrame.errorFrame "room-full" none)] := by
  rw [@handleMessage_join_full cfgRF st5 "b" ⟨none, true, true, ⟨20, 0⟩⟩ joinFrameW
    "r" ["a"] 0 (by decide)
    (by show (rateAllow cfgRF 0 (⟨20, 0⟩ : RateState)).1 = true; rw [rateAllowRF])
    (by decide) (by decide) (by decide) (by decide) (by decide) (by decide)]
  simp only [rateAllowRF]
  refine ⟨by decide, by decide, ?_⟩
  decide

/-- C5 amended: a `join-room` frame for a room at `MAX_ROOM_CLIENTS` capacity
makes the server send `error{room-full}` and leaves the room index unchanged,
every other client's record unchanged, and the sender's record unchanged
except for its rate bucket, which the rate check (applied to every inbound
frame) has just refilled and debited; in particular the sender remains in its
previous room (or in none). -/
theorem c5_room_full_amended (cfg : Config) (st : ServerState) (id : String)
    (fields : List (String × String)) (now : ℚ) (ci : Client) (s : String)
    (mem : List String)
    (hc : alookup st.clients id = some ci)
    (hopen : ci.wsOpen = true)
    (har : (rateAllow cfg now ci.rate).1 = true)
    (hkey : hasForbiddenKey fields = false)
    (hty : alookup fields "type" = some "join-room")
    (hroomf : alookup fields "room" = some s)
    (hvalid : isValidRoomName (some s) = true)
    (hm : alookup st.rooms s = some mem)
    (hcap : cfg.maxRoomClients ≤ mem.length) :
    (handleMessage cfg st id (Inbound.object fields) now).1.rooms = st.rooms ∧
    (∀ j, j ≠ id →
      alookup (handleMessage cfg st id (Inbound.object fields) now).1.clients j
        = alookup st.clients j) ∧
    (alookup (handleMessage cfg st id (Inbound.object fields) now).1.clients id
        = some { ci with rate := (rateAllow cfg now ci.rate).2 }) ∧
    (handleMessage cfg st id (Inbound.object fields) now).2
      = [Evt.send id (OutFrame.errorFrame "room-full" none)] := by
  rw [handleMessage_join_full now hc har hkey hty hroomf hvalid hm hcap]
  refine ⟨rfl, ?_, alookup_aset_self _ _ _, ?_⟩
  · intro j hj
    exact alookup_aset_ne _ _ _ _ hj
  · simp [sendToClient, hopen]

theorem c5_room_full_amended_witness :
    (handleMessage cfgRF st5 "b" (Inbound.object joinFrameW) 0).2
      = [Evt.send "b" (OutFrame.errorFrame "room-full" none)] :=
  (c5_room_full_amended cfgRF st5 "b" joinFrameW 0 ⟨none, true, true, ⟨20, 0⟩⟩ "r" ["a"]
    (by decide) rfl
    (by show (rateAllow cfgRF 0 (⟨20, 0⟩ : RateState)).1 = true; rw [rateAllowRF])
    (by decide) (by decide) (by decide) (by decide) (by decide) (by decide)).2.2.2

/-! ### C6: re-joining the current room -/

/-- Re-joining one's current room (below capacity) preserves room membership
as sets and every room field, and re-emits `room-joined` and `room-peers` to
the joiner. -/
theorem rejoin_core {st1 : ServerState} (hinv : Inv st1) {id : String} {ci1 : Client}
    {s : String} {mem : List String}
    (hc1 : alookup st1.clients id = some ci1) (hopen1 : ci1.wsOpen = true)
    (hro1 : ci1.room = some s) (hsne : s ≠ "")
    (hm1 : alookup st1.rooms s = some mem) :
    (∀ q m, roomHas (handleJoinRoom st1 id s).1.rooms q m ↔ roomHas st1.rooms q m) ∧
    (∀ j, (alookup (handleJoinRoom st1 id s).1.clients j).map Client.room
       = (alookup st1.clients j).map Client.room) ∧
    Evt.send id (OutFrame.roomJoined s) ∈ (handleJoinRoom st1 id s).2 ∧
    (∃ peers, Evt.send id (OutFrame.roomPeers peers) ∈ (handleJoinRoom st1 id s).2) := by
  have hnd : mem.Nodup := hinv.ndm s mem hm1
  have hidm : id ∈ mem := by
    obtain ⟨mem2, hm2, hin⟩ := (hinv.roomIff id ci1 hc1 s).mp hro1
    rw [hm1] at hm2
    cases hm2
    exact hin
  have ht1 : truthyS ci1.room = true := by
    rw [hro1]
    exact truthyS_some hsne
  rw [handleJoinRoom_eq_prev hc1 ht1, handleLeaveRoom_found hc1 hro1 hsne hm1]
  simp only [joinCore]
  by_cases h0 : (mem.erase id).length = 0
  · rw [if_pos h0]
    have heq0 : mem.erase id = [] := List.length_eq_zero.mp h0
    have hL : alookup (aerase (aset st1.rooms s (mem.erase id)) s) s = none :=
      alookup_aerase_self s (nodup_keys_aset s _ hinv.ndr)
    have hmm : ∀ m, m ∈ mem ↔ m = id := by
      intro m
      constructor
      · intro hm'
        by_contra hne
        have : m ∈ mem.erase id := (List.mem_erase_of_ne hne).mpr hm'
        rw [heq0] at this
        cases this
      · intro h
        exact h ▸ hidm
    simp only [hL, Option.getD_none]
    refine ⟨?_, ?_, ?_, ?_⟩
    · intro q m
      by_cases hq : q = s
      · rw [hq]
        constructor
        · rintro ⟨m2, hm2, hmm2⟩
          rw [alookup_aset_self] at hm2
          cases hm2
          have : m = id := by
            rcases (mem_sadd [] id m).mp hmm2 with h | h
            · cases h
            · exact h
          exact ⟨mem, hm1, (hmm m).mpr this⟩
        · rintro ⟨m2, hm2, hmm2⟩
          rw [hm1] at hm2
          cases hm2
          exact ⟨sadd [] id, alookup_aset_self _ _ _,
            (mem_sadd [] id m).mpr (Or.inr ((hmm m).mp hmm2))⟩
      · constructor
        · rintro ⟨m2, hm2, hmm2⟩
          rw [alookup_aset_ne _ _ _ _ hq, alookup_aerase_ne _ _ _ hq,
            alookup_aset_ne _ _ _ _ hq] at hm2
          exact ⟨m2, hm2, hmm2⟩
        · rintro ⟨m2, hm2, hmm2⟩
          refine ⟨m2, ?_, hmm2⟩
          rw [alookup_aset_ne _ _ _ _ hq, alookup_aerase_ne _ _ _ hq,
            alookup_aset_ne _ _ _ _ hq]
          exact hm2
    · intro j
      by_cases hj : j = id
      · rw [hj, alookup_aset_self, hc1]
        simp [hro1]
      · rw [alookup_aset_ne _ _ _ _ hj, alookup_aset_ne _ _ _ _ hj]
    · simp [sendToClient, hopen1, List.mem_append]
    · exact ⟨(sadd [] id).filter (fun x => x ≠ id),
        by simp [sendToClient, hopen1, List.mem_append]⟩
  · rw [if_neg h0]
    have hL : alookup (aset st1.rooms s (mem.erase id)) s = some (mem.erase id) :=
      alookup_aset_self _ _ _
    have hmm : ∀ m, m ∈ sadd (mem.erase id) id ↔ m ∈ mem := by
      intro m
      rw [mem_sadd]
      constructor
      · rintro (h | h)
        · exact List.mem_of_mem_erase h
        · exact h ▸ hidm
      · intro hm'
        by_cases hne : m = id
        · exact Or.inr hne
        · exact Or.inl ((List.mem_erase_of_ne hne).mpr hm')
    simp only [hL, Option.getD_some]
    refine ⟨?_, ?_, ?_, ?_⟩
    · intro q m
      by_cases hq : q = s
      · rw [hq]
        constructor
        · rintro ⟨m2, hm2, hmm2⟩
          rw [alookup_aset_self] at hm2
          cases hm2
          exact ⟨mem, hm1, (hmm m).mp hmm2⟩
        · rintro ⟨m2, hm2, hmm2⟩
          rw [hm1] at hm2
          cases hm2
          exact ⟨sadd (mem.erase id) id, alookup_aset_self _ _ _, (hmm m).mpr hmm2⟩
      · constructor
        · rintro ⟨m2, hm2, hmm2⟩
          rw [alookup_aset_ne _ _ _ _ hq, alookup_aset_ne _ _ _ _ hq] at hm2
          exact ⟨m2, hm2, hmm2⟩
        · rintro ⟨m2, hm2, hmm2⟩
          refine ⟨m2, ?_, hmm2⟩
          rw [alookup_aset_ne _ _ _ _ hq, alookup_aset_ne _ _ _ _ hq]
          exact hm2
    · intro j
      by_cases hj : j = id
      · rw [hj, alookup_aset_self, hc1]
        simp [hro1]
      · rw [alookup_aset_ne _ _ _ _ hj, alookup_aset_ne _ _ _ _ hj]
    · simp [sendToClient, hopen1, List.mem_append]
    · exact ⟨(sadd (mem.erase id) id).filter (fun x => x ≠ id),
        by simp [sendToClient, hopen1, List.mem_append]⟩

/-- C6 amended: for a client already in room `R`, a further `join-room R`
frame leaves room membership unchanged as sets and every client's room field
unchanged, and the sender is still sent fresh `room-joined{R}` and
`room-peers` frames — provided the room is below `MAX_ROOM_CLIENTS`
capacity.  (At capacity the `room-full` guard fires before the implicit
leave, so the re-join is refused; see the counterexample.) -/
theorem c6_rejoin_amended (cfg : Config) (st : ServerState) (id : String)
    (fields : List (String × String)) (now : ℚ) (ci : Client) (s : String)
    (mem : List String)
    (hinv : Inv st)
    (hc : alookup st.clients id = some ci)
    (hopen : ci.wsOpen = true)
    (hro : ci.room = some s)
    (har : (rateAllow cfg now ci.rate).1 = true)
    (hkey : hasForbiddenKey fields = false)
    (hty : alookup fields "type" = some "join-room")
    (hroomf : alookup fields "room" = some s)
    (hvalid : isValidRoomName (some s) = true)
    (hm : alookup st.rooms s = some mem)
    (hcap : mem.length < cfg.maxRoomClients) :
    (∀ q m, roomHas (handleMessage cfg st id (Inbound.object fields) now).1.rooms q m
       ↔ roomHas st.rooms q m) ∧
    (∀ j, (alookup (handleMessage cfg st id (Inbound.object fields) now).1.clients j).map
        Client.room = (alookup st.clients j).map Client.room) ∧
    Evt.send id (OutFrame.roomJoined s)
      ∈ (handleMessage cfg st id (Inbound.object fields) now).2 ∧
    (∃ peers, Evt.send id (OutFrame.roomPeers peers)
      ∈ (handleMessage cfg st id (Inbound.object fields) now).2) := by
  have hsne : s ≠ "" := by
    obtain ⟨s', heq, hne⟩ := isValidRoomName_spec hvalid
    cases heq
    exact hne
  have hnotfull : ∀ mem', alookup st.rooms s = some mem' →
      mem'.length < cfg.maxRoomClients := by
    intro mem' hm'
    rw [hm] at hm'
    cases hm'
    exact hcap
  rw [handleMessage_join_ok now hc har hkey hty hroomf hvalid hnotfull]
  have hinv1 : Inv (⟨aset st.clients id { ci with rate := (rateAllow cfg now ci.rate).2 },
      st.rooms⟩ : ServerState) := inv_aset_same_room hinv hc rfl
  have hcore := rejoin_core hinv1
    (alookup_aset_self st.clients id { ci with rate := (rateAllow cfg now ci.rate).2 })
    (show ({ ci with rate := (rateAllow cfg now ci.rate).2 } : Client).wsOpen = true
      from hopen)
    (show ({ ci with rate := (rateAllow cfg now ci.rate).2 } : Client).room = some s
      from hro)
    hsne
    (show alookup (⟨aset st.clients id { ci with rate := (rateAllow cfg now ci.rate).2 },
      st.rooms⟩ : ServerState).rooms s = some mem from hm)
  obtain ⟨h1, h2, h3, h4⟩ := hcore
  refine ⟨h1, ?_, h3, h4⟩
  intro j
  rw [h2 j]
  by_cases hj : j = id
  · rw [hj, alookup_aset_self, hc]
    rfl
  · rw [alookup_aset_ne _ _ _ _ hj]

/-- C6 counterexample: with `MAX_ROOM_CLIENTS = 1` and client `a` already in
room `r` (so the room is at capacity), a further `join-room r` from `a` is
answered `error{room-full}` — no fresh `room-joined` or `room-peers` frame is
sent, contradicting the claim as stated.  (The capacity guard runs before the
implicit leave, so a full room refuses even its own member's re-join.) -/
theorem c6_counterexample :
    alookup st5.clients "a" = some ⟨some "r", true, true, ⟨20, 0⟩⟩ ∧
    (handleMessage cfgRF st5 "a" (Inbound.object joinFrameW) 0).2
      = [Evt.send "a" (OutFrame.errorFrame "room-full" none)] ∧
    Evt.send "a" (OutFrame.roomJoined "r")
      ∉ (handleMessage cfgRF st5 "a" (Inbound.object joinFrameW) 0).2 := by
  rw [@handleMessage_join_full cfgRF st5 "a" ⟨some "r", true, true, ⟨20, 0⟩⟩ joinFrameW
    "r" ["a"] 0 (by decide)
    (by show (rateAllow cfgRF 0 (⟨20, 0⟩ : RateState)).1 = true; rw [rateAllowRF])
    (by decide) (by decide) (by decide) (by decide) (by decide) (by decide)]
  exact ⟨by decide, by decide, by decide⟩

theorem c6_rejoin_amended_witness :
    Evt.send "a" (OutFrame.roomJoined "r")
      ∈ (handleMessage cfg0 stW2 "a" (Inbound.object joinFrameW) 0).2 :=
  (c6_rejoin_amended cfg0 stW2 "a" joinFrameW 0 ⟨some "r", true, true, ⟨19, 0⟩⟩ "r" ["a"]
    (inv_reachable reachable_stW2) (by rw [stW2_eq]; decide) rfl rfl
    (by norm_num [rateAllow, cfg0]) (by decide) (by decide) (by decide) (by decide)
    (by rw [stW2_eq]; decide) (by decide)).2.2.1

/-! ### C3: ordering of the join notifications -/

theorem handleLeaveRoom_events_not_join {st : ServerState} (clientId : String) :
    ∀ e ∈ (handleLeaveRoom st clientId).2, isJoinNotification e = false := by
  intro e he
  cases hc : alookup st.clients clientId with
  | none =>
    rw [handleLeaveRoom_no_client hc] at he
    cases he
  | some ci =>
    cases ht : truthyS ci.room with
    | false =>
      rw [handleLeaveRoom_no_room hc ht] at he
      cases he
    | true =>
      obtain ⟨R, hro, hR⟩ := truthyS_eq_true ht
      cases hm : alookup st.rooms R with
      | none =>
        rw [handleLeaveRoom_noset hc hro hR hm] at he
        by_cases hop : ci.wsOpen = true
        · rw [if_pos hop] at he
          rw [show ((⟨aset st.clients clientId { ci with room := none }, st.rooms⟩,
              [Evt.send clientId (OutFrame.roomLeft R)]) :
              ServerState × List Evt).2 = [Evt.send clientId (OutFrame.roomLeft R)]
            from rfl, List.mem_singleton] at he
          subst he
          rfl
        · rw [if_neg hop] at he
          cases he
      | some mem =>
        rw [handleLeaveRoom_found hc hro hR hm] at he
        rw [show ((⟨aset st.clients clientId { ci with room := none },
            if (mem.erase clientId).length = 0
              then aerase (aset st.rooms R (mem.erase clientId)) R
              else aset st.rooms R (mem.erase clientId)⟩,
            broadcastToRoom ⟨st.clients, aset st.rooms R (mem.erase clientId)⟩
                (OutFrame.peerLeft clientId) R clientId
              ++ (if ci.wsOpen then [Evt.send clientId (OutFrame.roomLeft R)] else [])) :
            ServerState × List Evt).2
            = broadcastToRoom ⟨st.clients, aset st.rooms R (mem.erase clientId)⟩
                (OutFrame.peerLeft clientId) R clientId
              ++ (if ci.wsOpen then [Evt.send clientId (OutFrame.roomLeft R)] else [])
          from rfl, List.mem_append] at he
        rcases he with he | he
        · rw [mem_broadcastToRoom (alookup_aset_self _ _ _) e] at he
          obtain ⟨m, cm, _, _, _, _, rfl⟩ := he
          rfl
        · by_cases hop : ci.wsOpen = true
          · rw [if_pos hop] at he
            rw [List.mem_singleton] at he
            subst he
            rfl
          · rw [if_neg hop] at he
            cases he

/-- Shape and ordering of the events of `joinCore`: `room-joined` first, then
one `peer-joined` to exactly each open member other than the joiner, then
`room-peers` to the joiner, listing the members without the joiner. -/
theorem joinCore_order {st1 : ServerState} {clientId : String} {ci1 : Client}
    (hopen1 : ci1.wsOpen = true) (roomName : String) :
    ∃ mids mem,
      alookup (joinCore st1 clientId ci1 roomName).1.rooms roomName = some mem ∧
      (joinCore st1 clientId ci1 roomName).2
        = [Evt.send clientId (OutFrame.roomJoined roomName)] ++ mids
            ++ [Evt.send clientId
                 (OutFrame.roomPeers (mem.filter (fun x => x ≠ clientId)))] ∧
      (∀ e ∈ mids, ∃ m cm, m ∈ mem ∧ m ≠ clientId ∧
        alookup (joinCore st1 clientId ci1 roomName).1.clients m = some cm ∧
        cm.wsOpen = true ∧ e = Evt.send m (OutFrame.peerJoined clientId)) ∧
      (∀ m cm, m ∈ mem → m ≠ clientId →
        alookup (joinCore st1 clientId ci1 roomName).1.clients m = some cm →
        cm.wsOpen = true → Evt.send m (OutFrame.peerJoined clientId) ∈ mids) ∧
      (∀ x, x ∈ mem.filter (fun y => y ≠ clientId) ↔ (x ∈ mem ∧ x ≠ clientId)) := by
  simp only [joinCore]
  refine ⟨broadcastToRoom
      ⟨aset st1.clients clientId { ci1 with room := some roomName },
       aset st1.rooms roomName (sadd ((alookup st1.rooms roomName).getD []) clientId)⟩
      (OutFrame.peerJoined clientId) roomName clientId,
    sadd ((alookup st1.rooms roomName).getD []) clientId,
    alookup_aset_self _ _ _, ?_, ?_, ?_, ?_⟩
  · simp [sendToClient, hopen1]
  · intro e he
    rw [mem_broadcastToRoom (alookup_aset_self _ _ _) e] at he
    exact he
  · intro m cm hmem hne hcl hop
    rw [mem_broadcastToRoom (alookup_aset_self _ _ _)]
    exact ⟨m, cm, hmem, hne, hcl, hop, rfl⟩
  · intro x
    simp [List.mem_filter]

/-- C3: for every join by a registered client with an open stream, the
emitted events are: first any `peer-left`/`room-left` notifications of the
implicit leave of the previous room (none of which is a join notification),
then `room-joined` to the joiner, then `peer-joined` carrying the joiner's id
to exactly each other member of the room whose stream is open, then
`room-peers` to the joiner listing the room's members excluding the
joiner. -/
theorem c3_join_notification_order (st : ServerState) (clientId roomName : String)
    (ci0 : Client)
    (hc : alookup st.clients clientId = some ci0)
    (hopen : ci0.wsOpen = true) :
    ∃ pre mids mem,
      alookup (handleJoinRoom st clientId roomName).1.rooms roomName = some mem ∧
      (handleJoinRoom st clientId roomName).2
        = pre ++ [Evt.send clientId (OutFrame.roomJoined roomName)] ++ mids
            ++ [Evt.send clientId
                 (OutFrame.roomPeers (mem.filter (fun x => x ≠ clientId)))] ∧
      (∀ e ∈ pre, isJoinNotification e = false) ∧
      (∀ e ∈ mids, ∃ m cm, m ∈ mem ∧ m ≠ clientId ∧
        alookup (handleJoinRoom st clientId roomName).1.clients m = some cm ∧
        cm.wsOpen = true ∧ e = Evt.send m (OutFrame.peerJoined clientId)) ∧
      (∀ m cm, m ∈ mem → m ≠ clientId →
        alookup (handleJoinRoom st clientId roomName).1.clients m = some cm →
        cm.wsOpen = true → Evt.send m (OutFrame.peerJoined clientId) ∈ mids) ∧
      (∀ x, x ∈ mem.filter (fun y => y ≠ clientId) ↔ (x ∈ mem ∧ x ≠ clientId)) := by
  cases ht : truthyS ci0.room with
  | false =>
    rw [handleJoinRoom_eq_no_prev hc ht]
    obtain ⟨mids, mem, hlook, htrace, hmids, hcompl, hfilter⟩ :=
      @joinCore_order st clientId ci0 hopen roomName
    refine ⟨[], mids, mem, hlook, ?_, fun e he => absurd he (List.not_mem_nil e),
      hmids, hcompl, hfilter⟩
    rw [htrace]
    simp
  | true =>
    rw [handleJoinRoom_eq_prev hc ht]
    obtain ⟨mids, mem, hlook, htrace, hmids, hcompl, hfilter⟩ :=
      @joinCore_order (handleLeaveRoom st clientId).1 clientId
        { ci0 with room := none } hopen roomName
    refine ⟨(handleLeaveRoom st clientId).2, mids, mem, hlook, ?_,
      handleLeaveRoom_events_not_join clientId, hmids, hcompl, hfilter⟩
    rw [show ((( joinCore (handleLeaveRoom st clientId).1 clientId
          { ci0 with room := none } roomName).1,
        (handleLeaveRoom st clientId).2
          ++ (joinCore (handleLeaveRoom st clientId).1 clientId
              { ci0 with room := none } roomName).2) :
        ServerState × List Evt).2
        = (handleLeaveRoom st clientId).2
          ++ (joinCore (handleLeaveRoom st clientId).1 clientId
              { ci0 with room := none } roomName).2 from rfl, htrace]
    simp

theorem c3_join_notification_order_witness :
    ∃ pre mids mem,
      alookup (handleJoinRoom st5 "b" "r").1.rooms "r" = some mem ∧
      (handleJoinRoom st5 "b" "r").2
        = pre ++ [Evt.send "b" (OutFrame.roomJoined "r")] ++ mids
            ++ [Evt.send "b" (OutFrame.roomPeers (mem.filter (fun x => x ≠ "b")))] ∧
      (∀ e ∈ pre, isJoinNotification e = false) ∧
      (∀ e ∈ mids, ∃ m cm, m ∈ mem ∧ m ≠ "b" ∧
        alookup (handleJoinRoom st5 "b" "r").1.clients m = some cm ∧
        cm.wsOpen = true ∧ e = Evt.send m (OutFrame.peerJoined "b")) ∧
      (∀ m cm, m ∈ mem → m ≠ "b" →
        alookup (handleJoinRoom st5 "b" "r").1.clients m = some cm →
        cm.wsOpen = true → Evt.send m (OutFrame.peerJoined "b") ∈ mids) ∧
      (∀ x, x ∈ mem.filter (fun y => y ≠ "b") ↔ (x ∈ mem ∧ x ≠ "b")) :=
  c3_join_notification_order st5 "b" "r" ⟨none, true, true, ⟨20, 0⟩⟩ (by decide) rfl

end P2PServer
